import Mathlib

/-!
Verification development for the wt-security-dashboard synchronization and
risk-scoring pipeline.

The TypeScript source is shallowly embedded as follows:

* JavaScript numbers are modelled as `ℚ` (all values reached by the claims are
  exact decimals whose branch decisions have margins far beyond double
  rounding error); `Math.round` is `jround` (floor of `x + 1/2`, which is the
  JavaScript tie-toward-positive-infinity rounding).
* Dates are opaque: `new Date(string)` is an arbitrary parameter
  `pde : String → ℤ` (milliseconds), `Date.toISOString` an arbitrary
  parameter `iso : ℤ → String`, and `new Date()` a parameter `now : ℤ`.
  Theorems quantify over these, so they hold for the real JavaScript
  functions in particular.
* Database tables are lists of rows carrying a surrogate `id : ℕ`; the id
  allocator is an explicit `nextId` counter.  A JavaScript `Map` built from a
  row list (later entries overwriting earlier ones) is `mapLookup`.
* A fallible adapter fetch is `Except String (list of raw rows)`.
* The per-source reconcilers commit batches of at most 100 rows per
  transaction (`processBatch`); on the success path every batch commits, so
  the chunked fold equals the plain left fold used here.
-/

namespace WTSec

/-- JavaScript `Math.round`: floor of `x + 1/2` (ties round toward positive
infinity). -/
def jround (q : ℚ) : ℤ := ⌊q + 1/2⌋

/-- Embedding of the TypeScript idiom `s || null`: an empty string becomes
`null` (`none`), any other string is kept. -/
def strOpt (s : String) : Option String := if s = "" then none else some s

/-- Numeric value of a list of decimal digit characters. -/
def digitsVal (cs : List Char) : ℕ := cs.foldl (fun n c => 10 * n + (c.toNat - 48)) 0

/-- Core of `parseFloat` on a sign-stripped character list: an integer part,
optionally followed by a fractional part.  Returns `none` when no digits are
found (JavaScript `NaN`).  Exponent notation is not modelled: the spreadsheet
feeds carry plain decimal cells. -/
def jsParseFloatCore (cs : List Char) : Option ℚ :=
  let intPart := cs.takeWhile Char.isDigit
  let rest := cs.dropWhile Char.isDigit
  match intPart, rest with
  | [], '.' :: rest2 =>
      let frac := rest2.takeWhile Char.isDigit
      if frac = [] then none else some ((digitsVal frac : ℚ) / (10 : ℚ) ^ frac.length)
  | [], _ => none
  | ds, '.' :: rest2 =>
      let frac := rest2.takeWhile Char.isDigit
      some ((digitsVal ds : ℚ) + (digitsVal frac : ℚ) / (10 : ℚ) ^ frac.length)
  | ds, _ => some ((digitsVal ds : ℚ))

/-- JavaScript `parseFloat`: skip leading whitespace, optional sign, then
digits with an optional fraction; `none` models `NaN`. -/
def jsParseFloat (s : String) : Option ℚ :=
  match s.data.dropWhile Char.isWhitespace with
  | '-' :: rest => (jsParseFloatCore rest).map Neg.neg
  | '+' :: rest => jsParseFloatCore rest
  | cs => jsParseFloatCore cs

/-- Embedding of `parseFloat(s) || 0`: `NaN` (and `0` itself) collapse to 0. -/
def jsParseFloatD (s : String) : ℚ := (jsParseFloat s).getD 0

/-- Core of `parseInt` on a sign-stripped character list: leading digits only. -/
def jsParseIntCore (cs : List Char) : Option ℤ :=
  match cs.takeWhile Char.isDigit with
  | [] => none
  | ds => some ((digitsVal ds : ℤ))

/-- JavaScript `parseInt` (decimal): skip leading whitespace, optional sign,
then digits; `none` models `NaN`. -/
def jsParseInt (s : String) : Option ℤ :=
  match s.data.dropWhile Char.isWhitespace with
  | '-' :: rest => (jsParseIntCore rest).map Neg.neg
  | '+' :: rest => jsParseIntCore rest
  | cs => jsParseIntCore cs

/-- Embedding of `parseInt(s) || 0`. -/
def jsParseIntD (s : String) : ℤ := (jsParseInt s).getD 0

/-- JavaScript `Map` construction from a row list followed by `get`: when
several entries share a key the later entry wins.  `key` extracts the map key
and `val` the stored value. -/
def mapLookup {α β : Type} (key : α → String) (val : α → β) : List α → String → Option β
  | [], _ => none
  | x :: xs, k =>
      match mapLookup key val xs k with
      | some v => some v
      | none => if key x = k then some (val x) else none

/-! ## Risk weight configuration (`config/risk-weights.ts`) -/

/-- The four source weights of the scoring engine
(`riskConfig.weights` in `config/risk-weights.ts`). -/
structure RiskWeights where
  kb4 : ℚ
  ncm : ℚ
  edr : ℚ
  hibp : ℚ
deriving DecidableEq, Repr

/-- Schema defaults: kb4 0.20, ncm 0.35, edr 0.30, hibp 0.15. -/
def defaultWeights : RiskWeights := ⟨1/5, 7/20, 3/10, 3/20⟩

/-- A `Partial<RiskWeights>` runtime payload: each field optional. -/
structure WeightPayload where
  kb4 : Option ℚ
  ncm : Option ℚ
  edr : Option ℚ
  hibp : Option ℚ
deriving DecidableEq, Repr

/-- The spread `{ ...riskConfig.weights, ...newWeights }`. -/
def mergeWeights (w : RiskWeights) (p : WeightPayload) : RiskWeights :=
  ⟨p.kb4.getD w.kb4, p.ncm.getD w.ncm, p.edr.getD w.edr, p.hibp.getD w.hibp⟩

/-- Sum of the four weights. -/
def weightsTotal (w : RiskWeights) : ℚ := w.kb4 + w.ncm + w.edr + w.hibp

/-- `updateRiskWeights` from `config/risk-weights.ts`: merge the payload into
the current weights; if the merged total deviates from 1 by more than 0.001,
divide each weight by the total, otherwise store the merged weights as-is.
The function never rejects a payload.  (The HTTP route
`PUT /api/dashboard/weights` passes the request body to this function with no
schema validation.) -/
def updateRiskWeights (w : RiskWeights) (p : WeightPayload) : RiskWeights :=
  let merged := mergeWeights w p
  let total := weightsTotal merged
  if 1/1000 < |total - 1| then
    ⟨merged.kb4 / total, merged.ncm / total, merged.edr / total, merged.hibp / total⟩
  else merged

/-! ## Risk scoring engine (`routes/kb4.ts`, dashboard stats section) -/

/-- Runtime-configurable scoring factors (`riskConfig.factors`). -/
structure RiskFactors where
  kb4RiskPercentageMultiplier : ℚ
  kb4AvgScoreWeight : ℚ
  ncmCriticalPercentageMultiplier : ℚ
  ncmCvssMultiplier : ℚ
  edrPendingWeight : ℚ
  edrHighSeverityWeight : ℚ
  hibpPendingMultiplier : ℚ
deriving DecidableEq, Repr

/-- Schema defaults for the scoring factors. -/
def defaultFactors : RiskFactors := ⟨2, 1, 3, 8, 1, 1, 10⟩

/-- Result shape of `getKB4Stats`. -/
structure KB4Stats where
  totalUsers : ℕ
  highRiskUsers : ℕ
  avgRiskScore : ℚ
  avgPhishProneRate : ℚ
  riskPercentage : ℚ
  score : ℚ
deriving Repr

/-- `getKB4Stats`: inputs are the aggregate reads (active-user count,
high-risk count, and the two averages, 0 when the table is empty); outputs
include the rounded averages, the high-risk percentage and the clamped
sub-score. -/
def getKB4Stats (f : RiskFactors) (total highRisk : ℕ) (avgR avgP : ℚ) : KB4Stats :=
  let avgRiskScore : ℚ := (jround (avgR * 100) : ℚ) / 100
  let avgPhishProneRate : ℚ := (jround (avgP * 100) : ℚ) / 100
  let riskPercentage : ℚ :=
    if 0 < total then (jround (((highRisk : ℚ) / (total : ℚ)) * 100) : ℚ) else 0
  let score : ℚ :=
    min 100 (riskPercentage * f.kb4RiskPercentageMultiplier + avgRiskScore * f.kb4AvgScoreWeight)
  ⟨total, highRisk, avgRiskScore, avgPhishProneRate, riskPercentage, score⟩

/-- Result shape of `getNCMStats` (the priority breakdown fields are carried
as plain counts). -/
structure NCMStats where
  totalDevices : ℕ
  p0 : ℕ
  p1 : ℕ
  p3 : ℕ
  avgMaxCvss : ℚ
  totalCveInstances : ℕ
  criticalPercentage : ℚ
  score : ℚ
deriving Repr

/-- `getNCMStats`: aggregate inputs are the priority counts, the average of
`maxCvss` (0 when empty) and the CVE-instance sum. -/
def getNCMStats (f : RiskFactors) (total p0 p1 p3 : ℕ) (avgC : ℚ) (cveSum : ℕ) : NCMStats :=
  let avgMaxCvss : ℚ := (jround (avgC * 10) : ℚ) / 10
  let criticalPercentage : ℚ :=
    if 0 < total then (jround (((p0 : ℚ) / (total : ℚ)) * 100) : ℚ) else 0
  let score : ℚ :=
    min 100 (criticalPercentage * f.ncmCriticalPercentageMultiplier + avgMaxCvss * f.ncmCvssMultiplier)
  ⟨total, p0, p1, p3, avgMaxCvss, cveSum, criticalPercentage, score⟩

/-- Result shape of `getEDRStats`. -/
structure EDRStats where
  totalAlerts : ℕ
  newCount : ℕ
  investigating : ℕ
  resolved : ℕ
  falsePositive : ℕ
  critical : ℕ
  high : ℕ
  medium : ℕ
  low : ℕ
  pendingCount : ℕ
  pendingPercentage : ℚ
  highSeverityPercentage : ℚ
  score : ℚ
deriving Repr

/-- `getEDRStats`: aggregate inputs are the status and severity counts. -/
def getEDRStats (f : RiskFactors) (total newC inv res fp crit high med low : ℕ) : EDRStats :=
  let pendingCount := newC + inv
  let pendingPercentage : ℚ :=
    if 0 < total then (jround (((pendingCount : ℚ) / (total : ℚ)) * 100) : ℚ) else 0
  let highSeverityPercentage : ℚ :=
    if 0 < total then (jround ((((crit : ℚ) + (high : ℚ)) / (total : ℚ)) * 100) : ℚ) else 0
  let score : ℚ :=
    min 100 (pendingPercentage * f.edrPendingWeight + highSeverityPercentage * f.edrHighSeverityWeight)
  ⟨total, newC, inv, res, fp, crit, high, med, low, pendingCount,
    pendingPercentage, highSeverityPercentage, score⟩

/-- Result shape of `getHIBPStats`. -/
structure HIBPStats where
  totalBreaches : ℕ
  newCount : ℕ
  notified : ℕ
  passwordReset : ℕ
  resolved : ℕ
  recentBreaches : ℕ
  pendingCount : ℕ
  score : ℚ
deriving Repr

/-- `getHIBPStats`: aggregate inputs are the status counts and the
recent-discovery count. -/
def getHIBPStats (f : RiskFactors) (total newC noti pr res recent : ℕ) : HIBPStats :=
  let score : ℚ := min 100 ((newC : ℚ) * f.hibpPendingMultiplier)
  ⟨total, newC, noti, pr, res, recent, newC, score⟩

/-- `calculateOverallRisk`: rounded weighted sum of the four sub-scores. -/
def calculateOverallRisk (w : RiskWeights) (k : KB4Stats) (n : NCMStats) (e : EDRStats)
    (h : HIBPStats) : ℤ :=
  jround (k.score * w.kb4 + n.score * w.ncm + e.score * w.edr + h.score * w.hibp)

/-! ## Shared sync result and audit log shapes (`services/sync.ts`) -/

/-- The `SyncResult` interface (`duration` is wall-clock time and is omitted:
no claim mentions it). -/
structure SyncResult where
  success : Bool
  count : ℕ
  error : Option String
deriving DecidableEq, Repr

/-- One `SyncLog` row written by `logSync`. -/
structure SyncLogEntry where
  source : String
  status : String
  recordCount : ℕ
  error : Option String
deriving DecidableEq, Repr

/-! ## Device reconciler `syncNCM` (`services/sync.ts`) -/

/-- Raw NCM spreadsheet row (`NCMRawRow`); the adapter pads missing trailing
cells with the empty string. -/
structure NCMRawRow where
  AllDeviceNames : String
  AllDeviceIPs : String
  HW_Models : String
  FW_Series : String
  FW_Version : String
  UpdatePriority : String
  TotalCVEInstances : String
  MaxKEV_ActiveExploit : String
  MaxCriticalCVE : String
  MaxCVSS : String
  ActionRequired : String
deriving DecidableEq, Repr

/-- The per-device payload pushed onto `devices` by the fan-out loop. -/
structure Device where
  deviceName : String
  deviceIp : Option String
  hwModel : Option String
  fwSeries : Option String
  fwVersion : Option String
  updatePriority : String
  totalCveInstances : ℤ
  maxKevActiveExploit : ℤ
  maxCriticalCve : ℤ
  maxCvss : ℚ
  actionRequired : Option String
deriving DecidableEq, Repr

/-- JavaScript `String.prototype.split("; ")` on a character list: leftmost
non-overlapping occurrences of the two-character separator delimit the
segments; with no occurrence the whole input is the single segment. -/
def splitSemi : List Char → List (List Char)
  | [] => [[]]
  | ';' :: ' ' :: rest => [] :: splitSemi rest
  | c :: rest =>
      match splitSemi rest with
      | [] => [[c]]
      | seg :: segs => (c :: seg) :: segs

/-- `s.split("; ")` producing strings. -/
def splitSemiStr (s : String) : List String :=
  (splitSemi s.data).map (fun cs => String.mk cs)

/-- JavaScript `String.prototype.trim`: strip leading and trailing
whitespace. -/
def jsTrim (cs : List Char) : List Char :=
  ((cs.dropWhile Char.isWhitespace).reverse.dropWhile Char.isWhitespace).reverse

/-- `s.trim()` on strings. -/
def jsTrimStr (s : String) : String := String.mk (jsTrim s.data)

/-- Characters strictly before the first closing parenthesis, or `none` if
there is no closing parenthesis. -/
def beforeClose : List Char → Option (List Char)
  | [] => none
  | ')' :: _ => some []
  | c :: rest => (beforeClose rest).map (c :: ·)

/-- First capture of the regular expression `\(([^)]+)\)`: the earliest
opening parenthesis followed by at least one character and then a closing
parenthesis; the capture is everything up to that closing parenthesis. -/
def parenCapture : List Char → Option (List Char)
  | [] => none
  | '(' :: rest =>
      match beforeClose rest with
      | some cap => if cap = [] then parenCapture rest else some cap
      | none => parenCapture rest
  | _ :: rest => parenCapture rest

/-- `deviceIps[i]?.match(/\(([^)]+)\)/)`, keeping the capture group. -/
def extractIp (s : String) : Option String :=
  (parenCapture s.data).map (fun cs => String.mk cs)

/-- Fan-out of one NCM row (`syncNCM` parsing loop): split the name list on
`"; "`, trim each name, skip empty names, and pair each name with the
positional entry of the IP list (out-of-range entries behave like the
JavaScript `undefined`, yielding no IP). -/
def parseNCMRow (row : NCMRawRow) : List Device :=
  if row.AllDeviceNames = "" then []
  else
    let deviceNames := splitSemiStr row.AllDeviceNames
    let deviceIps := splitSemiStr row.AllDeviceIPs
    (List.range deviceNames.length).filterMap (fun i =>
      let deviceName := jsTrimStr (deviceNames.getD i "")
      if deviceName = "" then none
      else
        some
          { deviceName := deviceName
            deviceIp := extractIp (deviceIps.getD i "")
            hwModel := strOpt row.HW_Models
            fwSeries := strOpt row.FW_Series
            fwVersion := strOpt row.FW_Version
            updatePriority := if row.UpdatePriority = "" then "P3-Monitor" else row.UpdatePriority
            totalCveInstances := jsParseIntD row.TotalCVEInstances
            maxKevActiveExploit := jsParseIntD row.MaxKEV_ActiveExploit
            maxCriticalCve := jsParseIntD row.MaxCriticalCVE
            maxCvss := jsParseFloatD row.MaxCVSS
            actionRequired := strOpt row.ActionRequired })

/-- All devices fanned out from a feed, in feed order. -/
def parseNCM (rows : List NCMRawRow) : List Device :=
  (rows.map parseNCMRow).flatten

/-- A persisted `NCMDevice` row. -/
structure NCMRow where
  id : ℕ
  device : Device
  syncedAt : ℤ
deriving DecidableEq, Repr

/-- The persisted device table together with its id allocator. -/
structure NCMTable where
  nextId : ℕ
  rows : List NCMRow
deriving DecidableEq, Repr

/-- Reconciliation key string `deviceName + "|" + (deviceIp || "")`. -/
def dkey (d : Device) : String := d.deviceName ++ "|" ++ d.deviceIp.getD ""

/-- Key of a persisted device row. -/
def nkey (r : NCMRow) : String := dkey r.device

/-- `idsToDelete`: ids of persisted devices whose key no longer appears in
the feed's key set. -/
def ncmIdsToDelete (existing : List NCMRow) (newKeys : List String) : List ℕ :=
  (existing.filter (fun r => nkey r ∉ newKeys)).map NCMRow.id

/-- One iteration of the `syncNCM` upsert loop: look the device's key up in
the `existingMap` built from the pre-transaction row set; update that row in
place if found, otherwise create a fresh row. -/
def ncmApplyDevice (existing : List NCMRow) (now : ℤ) (st : NCMTable) (d : Device) : NCMTable :=
  match mapLookup nkey NCMRow.id existing (dkey d) with
  | some i =>
      { st with rows := st.rows.map (fun r => if r.id = i then ⟨r.id, d, now⟩ else r) }
  | none => ⟨st.nextId + 1, st.rows ++ [⟨st.nextId, d, now⟩]⟩

/-- The `syncNCM` reconciliation transaction: delete persisted rows whose key
left the feed, then upsert every fanned-out device against the map of
pre-transaction rows. -/
def syncNCMRun (now : ℤ) (feed : List NCMRawRow) (tbl : NCMTable) : NCMTable :=
  let devices := parseNCM feed
  let newKeys := devices.map dkey
  let toDelete := ncmIdsToDelete tbl.rows newKeys
  let kept : NCMTable := ⟨tbl.nextId, tbl.rows.filter (fun r => r.id ∉ toDelete)⟩
  devices.foldl (ncmApplyDevice tbl.rows now) kept

/-- `syncNCM` including the adapter fetch: a failed fetch aborts the
reconciliation, logs an `error` entry with count 0 and returns a structured
failure; a successful run logs `success` with the fanned-out device count. -/
def syncNCM (fetch : Except String (List NCMRawRow)) (now : ℤ) (tbl : NCMTable)
    (logs : List SyncLogEntry) : NCMTable × List SyncLogEntry × SyncResult :=
  match fetch with
  | .error e => (tbl, logs ++ [⟨"ncm", "error", 0, some e⟩], ⟨false, 0, some e⟩)
  | .ok feed =>
      (syncNCMRun now feed tbl,
        logs ++ [⟨"ncm", "success", (parseNCM feed).length, none⟩],
        ⟨true, (parseNCM feed).length, none⟩)

/-! ## Identity-risk reconciler `syncKB4` (`services/sync.ts`) -/

/-- Raw KB4 spreadsheet row (`KB4RawRow`). -/
structure KB4RawRow where
  user_id : String
  email : String
  first_name : String
  last_name : String
  department : String
  division : String
  location : String
  job_title : String
  manager_name : String
  manager_email : String
  employee_number : String
  status : String
  organization : String
  current_risk_score : String
  phish_prone_percentage : String
  last_sign_in : String
deriving DecidableEq, Repr

/-- A persisted `KB4User` row; `userId` is the unique natural key. -/
structure KB4Row where
  userId : String
  email : String
  firstName : String
  lastName : String
  department : Option String
  division : Option String
  location : Option String
  jobTitle : Option String
  managerName : Option String
  managerEmail : Option String
  employeeNumber : Option String
  status : String
  organization : Option String
  currentRiskScore : ℚ
  phishPronePercentage : ℚ
  lastSignIn : Option ℤ
  syncedAt : ℤ
deriving DecidableEq, Repr

/-- The `create` payload of the KB4 upsert. -/
def kb4Create (pde : String → ℤ) (now : ℤ) (row : KB4RawRow) : KB4Row :=
  { userId := row.user_id
    email := row.email
    firstName := row.first_name
    lastName := row.last_name
    department := strOpt row.department
    division := strOpt row.division
    location := strOpt row.location
    jobTitle := strOpt row.job_title
    managerName := strOpt row.manager_name
    managerEmail := strOpt row.manager_email
    employeeNumber := strOpt row.employee_number
    status := if row.status = "" then "active" else row.status
    organization := strOpt row.organization
    currentRiskScore := jsParseFloatD row.current_risk_score
    phishPronePercentage := jsParseFloatD row.phish_prone_percentage
    lastSignIn := if row.last_sign_in = "" then none else some (pde row.last_sign_in)
    syncedAt := now }

/-- The `update` payload of the KB4 upsert: only contact, organizational and
metric fields are refreshed (location, job title, manager fields, employee
number and organization are create-only). -/
def kb4Update (pde : String → ℤ) (now : ℤ) (row : KB4RawRow) (r : KB4Row) : KB4Row :=
  { r with
    email := row.email
    firstName := row.first_name
    lastName := row.last_name
    department := strOpt row.department
    division := strOpt row.division
    status := if row.status = "" then "active" else row.status
    currentRiskScore := jsParseFloatD row.current_risk_score
    phishPronePercentage := jsParseFloatD row.phish_prone_percentage
    lastSignIn := if row.last_sign_in = "" then none else some (pde row.last_sign_in)
    syncedAt := now }

/-- `prisma.kB4User.upsert` keyed on `userId`: the database enforces key
uniqueness, so the update branch rewrites the unique row holding the key. -/
def kb4Upsert (pde : String → ℤ) (now : ℤ) (rows : List KB4Row) (row : KB4RawRow) : List KB4Row :=
  if row.user_id ∈ rows.map KB4Row.userId then
    rows.map (fun r => if r.userId = row.user_id then kb4Update pde now row r else r)
  else rows ++ [kb4Create pde now row]

/-- `validData`: rows with both a user id and an email. -/
def kb4Valid (feed : List KB4RawRow) : List KB4RawRow :=
  feed.filter (fun row => ¬(row.user_id = "" ∨ row.email = ""))

/-- The `syncKB4` success path: batch upsert of all valid rows. -/
def syncKB4Run (pde : String → ℤ) (now : ℤ) (feed : List KB4RawRow) (rows : List KB4Row) :
    List KB4Row :=
  (kb4Valid feed).foldl (kb4Upsert pde now) rows

/-- `syncKB4` including the adapter fetch, the log entry and the structured
result (count is the number of valid rows processed). -/
def syncKB4 (fetch : Except String (List KB4RawRow)) (pde : String → ℤ) (now : ℤ)
    (rows : List KB4Row) (logs : List SyncLogEntry) :
    List KB4Row × List SyncLogEntry × SyncResult :=
  match fetch with
  | .error e => (rows, logs ++ [⟨"kb4", "error", 0, some e⟩], ⟨false, 0, some e⟩)
  | .ok feed =>
      (syncKB4Run pde now feed rows,
        logs ++ [⟨"kb4", "success", (kb4Valid feed).length, none⟩],
        ⟨true, (kb4Valid feed).length, none⟩)

/-! ## Alert reconciler `syncEDR` (`services/sync.ts`)

The raw sheet's localized column headers are mapped to field names:
`hostname` ← 主機名稱, `detectedAtStr` ← 偵測時間, `fileSha256` ← 可疑檔案的
SHA256, `severity` ← 伺服器性, `ioaName` ← IOA 名稱, `domain` ← 針對此偵測的
特定資料, `filePath` ← 檔案路徑, `vtVerdict` ← VT verdict. -/

/-- Raw EDR spreadsheet row. -/
structure EDRRawRow where
  hostname : String
  detectedAtStr : String
  fileSha256 : String
  severity : String
  ioaName : String
  domain : String
  filePath : String
  vtVerdict : String
deriving DecidableEq, Repr

/-- A parsed incoming alert (the `alerts` array element). -/
structure EDRAlert where
  hostname : String
  detectedAt : ℤ
  fileSha256 : Option String
  severity : String
  ioaName : String
  domain : Option String
  filePath : Option String
  vtVerdict : Option String
deriving DecidableEq, Repr

/-- Filtering and typing of raw EDR rows: rows missing hostname or detection
time are skipped; severity defaults to `Low`. -/
def parseEDR (pde : String → ℤ) (feed : List EDRRawRow) : List EDRAlert :=
  feed.filterMap (fun row =>
    if row.hostname = "" ∨ row.detectedAtStr = "" then none
    else
      some
        { hostname := row.hostname
          detectedAt := pde row.detectedAtStr
          fileSha256 := strOpt row.fileSha256
          severity := if row.severity = "" then "Low" else row.severity
          ioaName := row.ioaName
          domain := strOpt row.domain
          filePath := strOpt row.filePath
          vtVerdict := strOpt row.vtVerdict })

/-- A persisted `EDRAlert` row (workflow fields `status`, `assignedTo`,
`resolvedAt` are analyst-owned). -/
structure EDRRow where
  id : ℕ
  hostname : String
  detectedAt : ℤ
  fileSha256 : Option String
  severity : String
  ioaName : String
  domain : Option String
  filePath : Option String
  vtVerdict : Option String
  status : String
  assignedTo : Option String
  resolvedAt : Option ℤ
  syncedAt : ℤ
deriving DecidableEq, Repr

/-- The persisted alert table with its id allocator. -/
structure EDRTable where
  nextId : ℕ
  rows : List EDRRow
deriving DecidableEq, Repr

/-- Key string `hostname + "|" + detectedAt.toISOString() + "|" + (sha || "")`. -/
def ekeyOf (iso : ℤ → String) (hostname : String) (detectedAt : ℤ) (sha : Option String) :
    String :=
  hostname ++ "|" ++ iso detectedAt ++ "|" ++ sha.getD ""

/-- Key of an incoming alert. -/
def akey (iso : ℤ → String) (a : EDRAlert) : String :=
  ekeyOf iso a.hostname a.detectedAt a.fileSha256

/-- Key of a persisted alert row. -/
def ekey (iso : ℤ → String) (r : EDRRow) : String :=
  ekeyOf iso r.hostname r.detectedAt r.fileSha256

/-- One iteration of the `syncEDR` upsert loop: look the alert's key up in
the `existingMap` built once from the pre-run table; if found, update only
`vtVerdict` and `syncedAt` of that row; otherwise create a row with status
`new`. -/
def edrApplyAlert (iso : ℤ → String) (existing : List EDRRow) (now : ℤ) (st : EDRTable)
    (a : EDRAlert) : EDRTable :=
  match mapLookup (ekey iso) EDRRow.id existing (akey iso a) with
  | some i =>
      { st with
        rows := st.rows.map (fun r =>
          if r.id = i then { r with vtVerdict := a.vtVerdict, syncedAt := now } else r) }
  | none =>
      ⟨st.nextId + 1,
        st.rows ++ [⟨st.nextId, a.hostname, a.detectedAt, a.fileSha256, a.severity, a.ioaName,
          a.domain, a.filePath, a.vtVerdict, "new", none, none, now⟩]⟩

/-- The `syncEDR` success path: batch-fetch existing keys once up front, then
upsert every parsed alert. -/
def syncEDRRun (iso : ℤ → String) (pde : String → ℤ) (now : ℤ) (feed : List EDRRawRow)
    (tbl : EDRTable) : EDRTable :=
  (parseEDR pde feed).foldl (edrApplyAlert iso tbl.rows now) tbl

/-- `syncEDR` including the adapter fetch, log entry and structured result
(count is the number of parsed alerts). -/
def syncEDR (fetch : Except String (List EDRRawRow)) (iso : ℤ → String) (pde : String → ℤ)
    (now : ℤ) (tbl : EDRTable) (logs : List SyncLogEntry) :
    EDRTable × List SyncLogEntry × SyncResult :=
  match fetch with
  | .error e => (tbl, logs ++ [⟨"edr", "error", 0, some e⟩], ⟨false, 0, some e⟩)
  | .ok feed =>
      (syncEDRRun iso pde now feed tbl,
        logs ++ [⟨"edr", "success", (parseEDR pde feed).length, none⟩],
        ⟨true, (parseEDR pde feed).length, none⟩)

/-! ## Breach reconciler `syncHIBP` (`services/sync.ts`) -/

/-- Raw HIBP spreadsheet row. -/
structure HIBPRawRow where
  Domain : String
  Email : String
  Alias : String
  BreachName : String
  BreachDate : String
  Timestamp : String
deriving DecidableEq, Repr

/-- A persisted `HIBPBreach` row; `(email, breachName)` is the unique
composite natural key. -/
structure HIBPRow where
  domain : String
  email : String
  aliasName : Option String
  breachName : String
  breachDate : Option ℤ
  discoveredAt : ℤ
  status : String
  syncedAt : ℤ
deriving DecidableEq, Repr

/-- Natural key of a persisted breach row. -/
def hkey (r : HIBPRow) : String × String := (r.email, r.breachName)

/-- `prisma.hIBPBreach.upsert` keyed on `(email, breachName)`: on conflict
only `syncedAt` is refreshed; on create all fields are populated with status
`new` and the discovery time defaulting to the current time. -/
def hibpUpsert (pde : String → ℤ) (now : ℤ) (rows : List HIBPRow) (row : HIBPRawRow) :
    List HIBPRow :=
  if (row.Email, row.BreachName) ∈ rows.map hkey then
    rows.map (fun r =>
      if r.email = row.Email ∧ r.breachName = row.BreachName then { r with syncedAt := now }
      else r)
  else
    rows ++ [{ domain := row.Domain
               email := row.Email
               aliasName := strOpt row.Alias
               breachName := row.BreachName
               breachDate := if row.BreachDate = "" then none else some (pde row.BreachDate)
               discoveredAt := if row.Timestamp = "" then now else pde row.Timestamp
               status := "new"
               syncedAt := now }]

/-- `validData`: rows with both an email and a breach name. -/
def hibpValid (feed : List HIBPRawRow) : List HIBPRawRow :=
  feed.filter (fun row => ¬(row.Email = "" ∨ row.BreachName = ""))

/-- The `syncHIBP` success path: batch upsert of all valid rows. -/
def syncHIBPRun (pde : String → ℤ) (now : ℤ) (feed : List HIBPRawRow) (rows : List HIBPRow) :
    List HIBPRow :=
  (hibpValid feed).foldl (hibpUpsert pde now) rows

/-- `syncHIBP` including the adapter fetch, log entry and structured result. -/
def syncHIBP (fetch : Except String (List HIBPRawRow)) (pde : String → ℤ) (now : ℤ)
    (rows : List HIBPRow) (logs : List SyncLogEntry) :
    List HIBPRow × List SyncLogEntry × SyncResult :=
  match fetch with
  | .error e => (rows, logs ++ [⟨"hibp", "error", 0, some e⟩], ⟨false, 0, some e⟩)
  | .ok feed =>
      (syncHIBPRun pde now feed rows,
        logs ++ [⟨"hibp", "success", (hibpValid feed).length, none⟩],
        ⟨true, (hibpValid feed).length, none⟩)

/-! ## Sync orchestrator `syncAll` (`services/sync.ts`) -/

/-- The whole persisted store: one table per source plus the append-only
audit log. -/
structure DB where
  kb4 : List KB4Row
  ncm : NCMTable
  edr : EDRTable
  hibp : List HIBPRow
  logs : List SyncLogEntry
deriving Repr

/-- One adapter fetch outcome per source. -/
structure Fetches where
  kb4 : Except String (List KB4RawRow)
  ncm : Except String (List NCMRawRow)
  edr : Except String (List EDRRawRow)
  hibp : Except String (List HIBPRawRow)

/-- The combined `SyncAllResult`. -/
structure SyncAllResult where
  kb4 : SyncResult
  ncm : SyncResult
  edr : SyncResult
  hibp : SyncResult
deriving DecidableEq, Repr

/-- `syncAll`: run the four reconcilers over their disjoint tables and
return all four structured results.  The source runs them concurrently with
`Promise.all`; since each reconciler owns a disjoint table and each appends
its own log entry, the sequential composition used here produces the same
tables and results (only the interleaving of log entries can differ, so
log-related claims are stated per-source via `logs.filter`). -/
def syncAll (f : Fetches) (iso : ℤ → String) (pde : String → ℤ) (now : ℤ) (db : DB) :
    DB × SyncAllResult :=
  let rk := syncKB4 f.kb4 pde now db.kb4 db.logs
  let rn := syncNCM f.ncm now db.ncm rk.2.1
  let re := syncEDR f.edr iso pde now db.edr rn.2.1
  let rh := syncHIBP f.hibp pde now db.hibp re.2.1
  (⟨rk.1, rn.1, re.1, rh.1, rh.2.1⟩, ⟨rk.2.2, rn.2.2, re.2.2, rh.2.2⟩)

/-! ## Snapshot recorder (`services/sync.ts` `createDailySnapshot` and
`routes/trends.ts` `POST /api/trends/snapshot`) -/

/-- The rollup stored in one `DailySnapshot` row (without the date key). -/
structure SnapshotData where
  kb4TotalUsers : ℕ
  kb4HighRiskUsers : ℕ
  kb4AvgRiskScore : ℚ
  kb4AvgPhishProneRate : ℚ
  ncmTotalDevices : ℕ
  ncmP0Devices : ℕ
  ncmP1Devices : ℕ
  ncmTotalCves : ℕ
  edrTotalAlerts : ℕ
  edrHighAlerts : ℕ
  edrPendingAlerts : ℕ
  edrResolvedAlerts : ℕ
  hibpTotalBreaches : ℕ
  hibpNewBreaches : ℕ
  hibpPendingBreaches : ℕ
  overallRiskScore : ℤ
deriving DecidableEq, Repr

/-- The `DailySnapshot` table: rows keyed by the start-of-day date (the date
column carries a uniqueness constraint). -/
abbrev SnapTable : Type := List (ℤ × SnapshotData)

/-- `createDailySnapshot` (`services/sync.ts`, used by the scheduled job and
the manual `snapshot` trigger): if a row for today already exists the call
returns without writing anything; otherwise the freshly collected rollup is
inserted.  `today` is the start-of-day date and `d` the rollup collected at
call time. -/
def createDailySnapshot (today : ℤ) (d : SnapshotData) (tbl : SnapTable) : SnapTable :=
  if today ∈ tbl.map Prod.fst then tbl else tbl ++ [(today, d)]

/-- The `POST /api/trends/snapshot` route (`routes/trends.ts`):
`prisma.dailySnapshot.upsert` keyed on the date — create the row if absent,
otherwise overwrite its data. -/
def upsertSnapshot (today : ℤ) (d : SnapshotData) (tbl : SnapTable) : SnapTable :=
  if today ∈ tbl.map Prod.fst then
    tbl.map (fun e => if e.1 = today then (today, d) else e)
  else tbl ++ [(today, d)]

/-- Stored rollup for a date (`findUnique` on the date column). -/
def snapshotAt (today : ℤ) (tbl : SnapTable) : Option SnapshotData :=
  (tbl.find? (fun e => e.1 = today)).map Prod.snd

/-- Number of snapshot rows carrying a date. -/
def snapshotCount (today : ℤ) (tbl : SnapTable) : ℕ :=
  (tbl.filter (fun e => e.1 = today)).length

/-- The frame relation of the alert reconciler: `r'` is `r` with every field
except the third-party verdict and the sync timestamp unchanged. -/
def edrAgrees (r r' : EDRRow) : Prop :=
  r'.id = r.id ∧ r'.hostname = r.hostname ∧ r'.detectedAt = r.detectedAt ∧
  r'.fileSha256 = r.fileSha256 ∧ r'.severity = r.severity ∧ r'.ioaName = r.ioaName ∧
  r'.domain = r.domain ∧ r'.filePath = r.filePath ∧ r'.status = r.status ∧
  r'.assignedTo = r.assignedTo ∧ r'.resolvedAt = r.resolvedAt

/-! ## Concrete feed rows used by scenario theorems -/

/-- A constant date-to-string function, a legitimate instance of the abstract
`toISOString` parameter. -/
def isoConst : ℤ → String := fun _ => ""

/-- A constant date parser, a legitimate instance of the abstract
`new Date(string)` parameter. -/
def pdeConst : String → ℤ := fun _ => 0

/-- An EDR feed row; repeating it in a feed repeats its natural key. -/
def edrRowH : EDRRawRow := ⟨"h", "t", "", "", "", "", "", ""⟩

/-- An EDR feed row carrying a verdict for the key of `edrRowH`. -/
def edrRowHVerdict : EDRRawRow := ⟨"h", "t", "", "", "", "", "", "malicious"⟩

/-- A persisted alert row for the key of `edrRowH` whose status an analyst
set to `investigating`. -/
def edrRowInvestigating : EDRRow :=
  ⟨0, "h", 0, none, "Low", "", none, none, none, "investigating", none, none, 0⟩

/-- A KB4 feed row with user id `u1`. -/
def kb4RowU1 : KB4RawRow :=
  ⟨"u1", "a@x.com", "", "", "", "", "", "", "", "", "", "", "", "75", "30", ""⟩

/-- An HIBP feed row with key `(a@x.com, BreachOne)`. -/
def hibpRowA : HIBPRawRow := ⟨"x.com", "a@x.com", "", "BreachOne", "", ""⟩

/-- The device feed row of the spec's fan-out test: two names sharing one
vulnerability profile. -/
def ncmRowTwoRouters : NCMRawRow :=
  ⟨"router-1; router-2", "router-1(10.0.0.1); router-2(10.0.0.2)", "", "", "",
    "P0-Immediate", "", "", "", "9.8", ""⟩

/-- A device feed row whose fan-out repeats one device name, yielding two
entries with the same (name, ip) key. -/
def ncmRowDupA : NCMRawRow := ⟨"dup-a; dup-a", "", "", "", "", "", "", "", "", "", ""⟩

/-- A second duplicate-key feed row, used against the mirror-count claim. -/
def ncmRowDupB : NCMRawRow := ⟨"r1; r1", "", "", "", "", "", "", "", "", "", ""⟩

/-- A single-device feed row with no IP annotation. -/
def ncmRowSingle : NCMRawRow := ⟨"dev-w", "", "", "", "", "", "", "", "", "", ""⟩

/-! # Theorems -/

/-! ## Helper lemmas about rounding -/

theorem jround_nonneg {q : ℚ} (hq : 0 ≤ q) : 0 ≤ jround q :=
  Int.le_floor.mpr (by push_cast; linarith)

theorem jround_le {q : ℚ} {n : ℤ} (hq : q ≤ (n : ℚ)) : jround q ≤ n := by
  have h2 : ⌊q + 1/2⌋ < n + 1 := Int.floor_lt.mpr (by push_cast; linarith)
  unfold jround
  omega

theorem jround_cast_nonneg {q : ℚ} (hq : 0 ≤ q) : (0 : ℚ) ≤ (jround q : ℚ) := by
  exact_mod_cast jround_nonneg hq

/-! ## Helper lemmas about `updateRiskWeights` -/

theorem updateRiskWeights_pos_branch (w : RiskWeights) (p : WeightPayload)
    (hdev : 1/1000 < |weightsTotal (mergeWeights w p) - 1|) :
    updateRiskWeights w p =
      ⟨(mergeWeights w p).kb4 / weightsTotal (mergeWeights w p),
        (mergeWeights w p).ncm / weightsTotal (mergeWeights w p),
        (mergeWeights w p).edr / weightsTotal (mergeWeights w p),
        (mergeWeights w p).hibp / weightsTotal (mergeWeights w p)⟩ := by
  unfold updateRiskWeights
  rw [if_pos hdev]

theorem updateRiskWeights_total_one (w : RiskWeights) (p : WeightPayload)
    (h0 : weightsTotal (mergeWeights w p) ≠ 0)
    (hdev : 1/1000 < |weightsTotal (mergeWeights w p) - 1|) :
    weightsTotal (updateRiskWeights w p) = 1 := by
  rw [updateRiskWeights_pos_branch w p hdev]
  show (mergeWeights w p).kb4 / weightsTotal (mergeWeights w p) +
      (mergeWeights w p).ncm / weightsTotal (mergeWeights w p) +
      (mergeWeights w p).edr / weightsTotal (mergeWeights w p) +
      (mergeWeights w p).hibp / weightsTotal (mergeWeights w p) = 1
  rw [div_add_div_same, div_add_div_same, div_add_div_same]
  exact div_self h0

/-! ## C3: runtime weight updates -/

/-- C3 counterexample.  The claim says an invalid weight-update payload is
rejected without mutating the configuration.  The payload `{kb4: 2}` violates
the weight schema's `[0,1]` range, yet `updateRiskWeights` (reached from
`PUT /api/dashboard/weights` with no validation) accepts it and replaces the
default weights with the normalized merge, storing `kb4 = 5/7`: the prior
valid weights do not remain in effect.  (The branch decision has margin 1.799
against the 0.001 tolerance, so the exact-rational model agrees with the
floating-point code.) -/
theorem updateRiskWeights_out_of_range_mutates :
    updateRiskWeights defaultWeights ⟨some 2, none, none, none⟩ ≠ defaultWeights ∧
    (updateRiskWeights defaultWeights ⟨some 2, none, none, none⟩).kb4 = 5/7 := by
  have habs : |weightsTotal (mergeWeights defaultWeights ⟨some 2, none, none, none⟩) - 1|
      = 9/5 := by
    show |(2 : ℚ) + 7/20 + 3/10 + 3/20 - 1| = 9/5
    rw [show (2 : ℚ) + 7/20 + 3/10 + 3/20 - 1 = 9/5 by norm_num]
    exact abs_of_pos (by norm_num)
  have hb := updateRiskWeights_pos_branch defaultWeights ⟨some 2, none, none, none⟩
    (by rw [habs]; norm_num)
  rw [hb]
  constructor
  · intro hcontra
    have : ((2 : ℚ)) / ((2 : ℚ) + 7/20 + 3/10 + 3/20) = 1/5 := congrArg RiskWeights.kb4 hcontra
    norm_num at this
  · show (2 : ℚ) / ((2 : ℚ) + 7/20 + 3/10 + 3/20) = 5/7
    norm_num

/-- C3 (amended).  Runtime weight-update payloads are never rejected: the
update is always applied.  Whenever the merged total is nonzero and deviates
from 1 by more than 0.001 — which includes every payload violating the
schema's `[0,1]` range enough to move the sum — the stored configuration
becomes the merged weights divided by their total (which then sum to 1),
replacing the prior weights rather than retaining them.  The operation is a
pure configuration update and produces no sync log entry, so no failure is
ever propagated as a sync failure. -/
theorem updateRiskWeights_never_rejects (w : RiskWeights) (p : WeightPayload)
    (h0 : weightsTotal (mergeWeights w p) ≠ 0)
    (hdev : 1/1000 < |weightsTotal (mergeWeights w p) - 1|) :
    updateRiskWeights w p =
      ⟨(mergeWeights w p).kb4 / weightsTotal (mergeWeights w p),
        (mergeWeights w p).ncm / weightsTotal (mergeWeights w p),
        (mergeWeights w p).edr / weightsTotal (mergeWeights w p),
        (mergeWeights w p).hibp / weightsTotal (mergeWeights w p)⟩ ∧
    weightsTotal (updateRiskWeights w p) = 1 :=
  ⟨updateRiskWeights_pos_branch w p hdev, updateRiskWeights_total_one w p h0 hdev⟩

/-- C3 witness: the out-of-range payload `{kb4: 2}` against the default
weights satisfies both hypotheses and the conclusion. -/
theorem updateRiskWeights_never_rejects_check :
    weightsTotal (mergeWeights defaultWeights ⟨some 2, none, none, none⟩) ≠ 0 ∧
    1/1000 < |weightsTotal (mergeWeights defaultWeights ⟨some 2, none, none, none⟩) - 1| ∧
    weightsTotal (updateRiskWeights defaultWeights ⟨some 2, none, none, none⟩) = 1 := by
  have h0 : weightsTotal (mergeWeights defaultWeights ⟨some 2, none, none, none⟩) ≠ 0 := by
    show (2 : ℚ) + 7/20 + 3/10 + 3/20 ≠ 0
    norm_num
  have hdev : 1/1000 <
      |weightsTotal (mergeWeights defaultWeights ⟨some 2, none, none, none⟩) - 1| := by
    have : weightsTotal (mergeWeights defaultWeights ⟨some 2, none, none, none⟩) - 1
        = 9/5 := by
      show (2 : ℚ) + 7/20 + 3/10 + 3/20 - 1 = 9/5
      norm_num
    rw [this, abs_of_pos (by norm_num : (0:ℚ) < 9/5)]
    norm_num
  exact ⟨h0, hdev, (updateRiskWeights_never_rejects defaultWeights ⟨some 2, none, none, none⟩
    h0 hdev).2⟩

/-! ## C6: weight normalization -/

/-- C6 counterexample.  The claim says that whenever the merged sum deviates
from 1 by more than 0.001 the stored weights (each divided by the sum) sum
to 1.  The schema-valid payload `{kb4:0, ncm:0, edr:0, hibp:0}` merges to a
sum of 0, the deviation is material, yet the stored weights cannot sum to 1:
the code divides by 0 (producing `NaN` weights in JavaScript; in this exact
model, division by zero yields 0, and in both semantics the stored sum is
not 1 within any tolerance). -/
theorem weight_normalization_zero_sum_fails :
    1/1000 <
      |weightsTotal (mergeWeights defaultWeights ⟨some 0, some 0, some 0, some 0⟩) - 1| ∧
    weightsTotal (updateRiskWeights defaultWeights ⟨some 0, some 0, some 0, some 0⟩) ≠ 1 := by
  have hdev : 1/1000 <
      |weightsTotal (mergeWeights defaultWeights ⟨some 0, some 0, some 0, some 0⟩) - 1| := by
    have : weightsTotal (mergeWeights defaultWeights ⟨some 0, some 0, some 0, some 0⟩) - 1
        = -1 := by
      show (0 : ℚ) + 0 + 0 + 0 - 1 = -1
      norm_num
    rw [this]
    rw [abs_of_neg (by norm_num : (-1 : ℚ) < 0)]
    norm_num
  refine ⟨hdev, ?_⟩
  rw [updateRiskWeights_pos_branch _ _ hdev]
  show (0 : ℚ) / ((0 : ℚ) + 0 + 0 + 0) + 0 / ((0 : ℚ) + 0 + 0 + 0)
      + 0 / ((0 : ℚ) + 0 + 0 + 0) + 0 / ((0 : ℚ) + 0 + 0 + 0) ≠ 1
  norm_num

/-- C6 (amended).  When the merged sum deviates from 1 by more than 0.001
each stored weight is the merged weight divided by the sum, so — provided the
merged sum is nonzero — the stored weights sum to 1; in particular the
payload with all four weights 0.1 (sum 0.4) yields stored weights of exactly
0.25 each. -/
theorem weight_normalization_sum_one :
    (∀ (w : RiskWeights) (p : WeightPayload),
        weightsTotal (mergeWeights w p) ≠ 0 →
        1/1000 < |weightsTotal (mergeWeights w p) - 1| →
        weightsTotal (updateRiskWeights w p) = 1) ∧
    updateRiskWeights defaultWeights ⟨some (1/10), some (1/10), some (1/10), some (1/10)⟩
      = ⟨1/4, 1/4, 1/4, 1/4⟩ := by
  constructor
  · exact fun w p h0 hdev => updateRiskWeights_total_one w p h0 hdev
  · have hdev : 1/1000 < |weightsTotal
        (mergeWeights defaultWeights ⟨some (1/10), some (1/10), some (1/10), some (1/10)⟩)
        - 1| := by
      have : weightsTotal
          (mergeWeights defaultWeights ⟨some (1/10), some (1/10), some (1/10), some (1/10)⟩)
          - 1 = -(3/5) := by
        show (1 : ℚ)/10 + 1/10 + 1/10 + 1/10 - 1 = -(3/5)
        norm_num
      rw [this, abs_of_neg (by norm_num : (-(3/5) : ℚ) < 0)]
      norm_num
    rw [updateRiskWeights_pos_branch _ _ hdev]
    show (⟨(1 : ℚ)/10 / ((1 : ℚ)/10 + 1/10 + 1/10 + 1/10),
        (1 : ℚ)/10 / ((1 : ℚ)/10 + 1/10 + 1/10 + 1/10),
        (1 : ℚ)/10 / ((1 : ℚ)/10 + 1/10 + 1/10 + 1/10),
        (1 : ℚ)/10 / ((1 : ℚ)/10 + 1/10 + 1/10 + 1/10)⟩ : RiskWeights) = ⟨1/4, 1/4, 1/4, 1/4⟩
    simp only [RiskWeights.mk.injEq]
    norm_num

/-- C6 witness: the all-0.1 payload satisfies the hypotheses of the general
normalization statement and its conclusion. -/
theorem weight_normalization_sum_one_check :
    weightsTotal (mergeWeights defaultWeights
        ⟨some (1/10), some (1/10), some (1/10), some (1/10)⟩) ≠ 0 ∧
    weightsTotal (updateRiskWeights defaultWeights
        ⟨some (1/10), some (1/10), some (1/10), some (1/10)⟩) = 1 := by
  have h0 : weightsTotal (mergeWeights defaultWeights
      ⟨some (1/10), some (1/10), some (1/10), some (1/10)⟩) ≠ 0 := by
    show (1 : ℚ)/10 + 1/10 + 1/10 + 1/10 ≠ 0
    norm_num
  have hdev : 1/1000 < |weightsTotal (mergeWeights defaultWeights
      ⟨some (1/10), some (1/10), some (1/10), some (1/10)⟩) - 1| := by
    have : weightsTotal
        (mergeWeights defaultWeights ⟨some (1/10), some (1/10), some (1/10), some (1/10)⟩)
        - 1 = -(3/5) := by
      show (1 : ℚ)/10 + 1/10 + 1/10 + 1/10 - 1 = -(3/5)
      norm_num
    rw [this, abs_of_neg (by norm_num : (-(3/5) : ℚ) < 0)]
    norm_num
  exact ⟨h0, weight_normalization_sum_one.1 defaultWeights
    ⟨some (1/10), some (1/10), some (1/10), some (1/10)⟩ h0 hdev⟩

/-! ## C7: score boundedness -/

theorem min100_bounds {x : ℚ} (hx : 0 ≤ x) : 0 ≤ min 100 x ∧ min 100 x ≤ 100 :=
  ⟨le_min (by norm_num) hx, min_le_left _ _⟩

theorem kb4_score_bounds (total highRisk : ℕ) (avgR avgP : ℚ) (h1 : 0 ≤ avgR) :
    0 ≤ (getKB4Stats defaultFactors total highRisk avgR avgP).score ∧
    (getKB4Stats defaultFactors total highRisk avgR avgP).score ≤ 100 := by
  have hrp : (0 : ℚ) ≤
      (if 0 < total then ((jround (((highRisk : ℚ) / (total : ℚ)) * 100) : ℚ)) else 0) := by
    split
    · exact jround_cast_nonneg (by positivity)
    · exact le_refl 0
  have havg : (0 : ℚ) ≤ (jround (avgR * 100) : ℚ) / 100 :=
    div_nonneg (jround_cast_nonneg (by positivity)) (by norm_num)
  show 0 ≤ min 100
      ((if 0 < total then ((jround (((highRisk : ℚ) / (total : ℚ)) * 100) : ℚ)) else 0) * 2 +
        (jround (avgR * 100) : ℚ) / 100 * 1) ∧
    min 100
      ((if 0 < total then ((jround (((highRisk : ℚ) / (total : ℚ)) * 100) : ℚ)) else 0) * 2 +
        (jround (avgR * 100) : ℚ) / 100 * 1) ≤ 100
  exact min100_bounds (by linarith)

theorem ncm_score_bounds (total p0 p1 p3 : ℕ) (avgC : ℚ) (cveSum : ℕ) (h1 : 0 ≤ avgC) :
    0 ≤ (getNCMStats defaultFactors total p0 p1 p3 avgC cveSum).score ∧
    (getNCMStats defaultFactors total p0 p1 p3 avgC cveSum).score ≤ 100 := by
  have hcp : (0 : ℚ) ≤
      (if 0 < total then ((jround (((p0 : ℚ) / (total : ℚ)) * 100) : ℚ)) else 0) := by
    split
    · exact jround_cast_nonneg (by positivity)
    · exact le_refl 0
  have havg : (0 : ℚ) ≤ (jround (avgC * 10) : ℚ) / 10 :=
    div_nonneg (jround_cast_nonneg (by positivity)) (by norm_num)
  show 0 ≤ min 100
      ((if 0 < total then ((jround (((p0 : ℚ) / (total : ℚ)) * 100) : ℚ)) else 0) * 3 +
        (jround (avgC * 10) : ℚ) / 10 * 8) ∧
    min 100
      ((if 0 < total then ((jround (((p0 : ℚ) / (total : ℚ)) * 100) : ℚ)) else 0) * 3 +
        (jround (avgC * 10) : ℚ) / 10 * 8) ≤ 100
  exact min100_bounds (by linarith)

theorem edr_score_bounds (total newC inv res fp crit high med low : ℕ) :
    0 ≤ (getEDRStats defaultFactors total newC inv res fp crit high med low).score ∧
    (getEDRStats defaultFactors total newC inv res fp crit high med low).score ≤ 100 := by
  have hpp : (0 : ℚ) ≤
      (if 0 < total then ((jround ((((newC + inv : ℕ) : ℚ) / (total : ℚ)) * 100) : ℚ))
        else 0) := by
    split
    · exact jround_cast_nonneg (by positivity)
    · exact le_refl 0
  have hhp : (0 : ℚ) ≤
      (if 0 < total then ((jround ((((crit : ℚ) + (high : ℚ)) / (total : ℚ)) * 100) : ℚ))
        else 0) := by
    split
    · exact jround_cast_nonneg (by positivity)
    · exact le_refl 0
  show 0 ≤ min 100
      ((if 0 < total then ((jround ((((newC + inv : ℕ) : ℚ) / (total : ℚ)) * 100) : ℚ))
          else 0) * 1 +
        (if 0 < total then ((jround ((((crit : ℚ) + (high : ℚ)) / (total : ℚ)) * 100) : ℚ))
          else 0) * 1) ∧
    min 100
      ((if 0 < total then ((jround ((((newC + inv : ℕ) : ℚ) / (total : ℚ)) * 100) : ℚ))
          else 0) * 1 +
        (if 0 < total then ((jround ((((crit : ℚ) + (high : ℚ)) / (total : ℚ)) * 100) : ℚ))
          else 0) * 1) ≤ 100
  exact min100_bounds (by linarith)

theorem hibp_score_bounds (total newC noti pr res recent : ℕ) :
    0 ≤ (getHIBPStats defaultFactors total newC noti pr res recent).score ∧
    (getHIBPStats defaultFactors total newC noti pr res recent).score ≤ 100 := by
  show 0 ≤ min 100 ((newC : ℚ) * 10) ∧ min 100 ((newC : ℚ) * 10) ≤ 100
  exact min100_bounds (by positivity)

theorem overall_risk_bounds {k : KB4Stats} {n : NCMStats} {e : EDRStats} {h : HIBPStats}
    (hk : 0 ≤ k.score ∧ k.score ≤ 100) (hn : 0 ≤ n.score ∧ n.score ≤ 100)
    (he : 0 ≤ e.score ∧ e.score ≤ 100) (hh : 0 ≤ h.score ∧ h.score ≤ 100) :
    0 ≤ calculateOverallRisk defaultWeights k n e h ∧
    calculateOverallRisk defaultWeights k n e h ≤ 100 := by
  obtain ⟨hk0, hk1⟩ := hk
  obtain ⟨hn0, hn1⟩ := hn
  obtain ⟨he0, he1⟩ := he
  obtain ⟨hh0, hh1⟩ := hh
  constructor
  · exact jround_nonneg (by
      show (0 : ℚ) ≤ k.score * (1/5) + n.score * (7/20) + e.score * (3/10) + h.score * (3/20)
      linarith)
  · exact jround_le (by
      show k.score * (1/5) + n.score * (7/20) + e.score * (3/10) + h.score * (3/20)
        ≤ ((100 : ℤ) : ℚ)
      push_cast
      linarith)

/-- C7.  For every combination of non-negative aggregate counts and averages
read from the store (including zero totals), each of the four per-source
sub-scores and the overall weighted score computed with the default weights
and factors lie in the interval `[0, 100]`. -/
theorem score_boundedness
    (kTot kHigh : ℕ) (kAvgR kAvgP : ℚ) (nTot nP0 nP1 nP3 : ℕ) (nAvgC : ℚ) (nCve : ℕ)
    (eTot eNew eInv eRes eFp eCr eHi eMe eLo : ℕ) (hTot hNew hNo hPr hRe hRec : ℕ)
    (h1 : 0 ≤ kAvgR) (_h2 : 0 ≤ kAvgP) (h3 : 0 ≤ nAvgC) :
    (0 ≤ (getKB4Stats defaultFactors kTot kHigh kAvgR kAvgP).score ∧
      (getKB4Stats defaultFactors kTot kHigh kAvgR kAvgP).score ≤ 100) ∧
    (0 ≤ (getNCMStats defaultFactors nTot nP0 nP1 nP3 nAvgC nCve).score ∧
      (getNCMStats defaultFactors nTot nP0 nP1 nP3 nAvgC nCve).score ≤ 100) ∧
    (0 ≤ (getEDRStats defaultFactors eTot eNew eInv eRes eFp eCr eHi eMe eLo).score ∧
      (getEDRStats defaultFactors eTot eNew eInv eRes eFp eCr eHi eMe eLo).score ≤ 100) ∧
    (0 ≤ (getHIBPStats defaultFactors hTot hNew hNo hPr hRe hRec).score ∧
      (getHIBPStats defaultFactors hTot hNew hNo hPr hRe hRec).score ≤ 100) ∧
    (0 ≤ calculateOverallRisk defaultWeights
        (getKB4Stats defaultFactors kTot kHigh kAvgR kAvgP)
        (getNCMStats defaultFactors nTot nP0 nP1 nP3 nAvgC nCve)
        (getEDRStats defaultFactors eTot eNew eInv eRes eFp eCr eHi eMe eLo)
        (getHIBPStats defaultFactors hTot hNew hNo hPr hRe hRec) ∧
      calculateOverallRisk defaultWeights
        (getKB4Stats defaultFactors kTot kHigh kAvgR kAvgP)
        (getNCMStats defaultFactors nTot nP0 nP1 nP3 nAvgC nCve)
        (getEDRStats defaultFactors eTot eNew eInv eRes eFp eCr eHi eMe eLo)
        (getHIBPStats defaultFactors hTot hNew hNo hPr hRe hRec) ≤ 100) := by
  have hk := kb4_score_bounds kTot kHigh kAvgR kAvgP h1
  have hn := ncm_score_bounds nTot nP0 nP1 nP3 nAvgC nCve h3
  have he := edr_score_bounds eTot eNew eInv eRes eFp eCr eHi eMe eLo
  have hh := hibp_score_bounds hTot hNew hNo hPr hRe hRec
  exact ⟨hk, hn, he, hh, overall_risk_bounds hk hn he hh⟩

/-- C7 witness: instantiation at a degenerate store (all KB4 and NCM
aggregates zero, i.e. empty tables) together with nonzero EDR and HIBP
counts. -/
theorem score_boundedness_check :
    (0 : ℚ) ≤ 0 ∧ (0 : ℚ) ≤ 0 ∧ (0 : ℚ) ≤ 0 ∧
    (0 ≤ calculateOverallRisk defaultWeights
        (getKB4Stats defaultFactors 0 0 0 0)
        (getNCMStats defaultFactors 0 0 0 0 0 0)
        (getEDRStats defaultFactors 4 1 1 1 1 2 1 1 0)
        (getHIBPStats defaultFactors 3 3 0 0 0 1) ∧
      calculateOverallRisk defaultWeights
        (getKB4Stats defaultFactors 0 0 0 0)
        (getNCMStats defaultFactors 0 0 0 0 0 0)
        (getEDRStats defaultFactors 4 1 1 1 1 2 1 1 0)
        (getHIBPStats defaultFactors 3 3 0 0 0 1) ≤ 100) :=
  ⟨le_refl 0, le_refl 0, le_refl 0,
    (score_boundedness 0 0 0 0 0 0 0 0 0 0 4 1 1 1 1 2 1 1 0 3 3 0 0 0 1
      (le_refl 0) (le_refl 0) (le_refl 0)).2.2.2.2⟩

/-! ## C1: snapshot capture -/

theorem snapshotCount_pos_iff (t : ℤ) (tbl : SnapTable) :
    t ∈ tbl.map Prod.fst ↔ 0 < snapshotCount t tbl := by
  unfold snapshotCount
  constructor
  · intro h
    obtain ⟨e, he, het⟩ := List.mem_map.mp h
    have hmem : e ∈ tbl.filter (fun e => e.1 = t) :=
      List.mem_filter.mpr ⟨he, by simp [het]⟩
    exact List.length_pos.mpr (fun hnil => by simp [hnil] at hmem)
  · intro h
    obtain ⟨e, he⟩ := List.exists_mem_of_length_pos h
    have hp := List.mem_filter.mp he
    exact List.mem_map.mpr ⟨e, hp.1, by simpa using hp.2⟩

theorem snapshotCount_append_self (t : ℤ) (d : SnapshotData) (tbl : SnapTable) :
    snapshotCount t (tbl ++ [(t, d)]) = snapshotCount t tbl + 1 := by
  unfold snapshotCount
  rw [List.filter_append]
  simp

theorem snapshotCount_overwrite (t : ℤ) (d : SnapshotData) (tbl : SnapTable) :
    snapshotCount t (tbl.map (fun e => if e.1 = t then (t, d) else e)) =
      snapshotCount t tbl := by
  induction tbl with
  | nil => rfl
  | cons e rest ih =>
      unfold snapshotCount at *
      by_cases he : e.1 = t
      · simp [List.filter_cons, he, ih]
      · simp [List.filter_cons, he, ih]

theorem snapshotAt_overwrite (t : ℤ) (d : SnapshotData) (tbl : SnapTable)
    (hm : t ∈ tbl.map Prod.fst) :
    snapshotAt t (tbl.map (fun e => if e.1 = t then (t, d) else e)) = some d := by
  induction tbl with
  | nil => simp at hm
  | cons e rest ih =>
      unfold snapshotAt
      by_cases he : e.1 = t
      · simp [List.find?_cons, he]
      · have hm' : t ∈ rest.map Prod.fst := by
          rcases List.mem_map.mp hm with ⟨x, hx, hxt⟩
          rcases List.mem_cons.mp hx with hx1 | hx2
          · exact absurd (hx1 ▸ hxt) he
          · exact List.mem_map.mpr ⟨x, hx2, hxt⟩
        have := ih hm'
        unfold snapshotAt at this
        simpa [List.find?_cons, he] using this

theorem snapshotAt_append_self (t : ℤ) (d : SnapshotData) (tbl : SnapTable)
    (hm : t ∉ tbl.map Prod.fst) :
    snapshotAt t (tbl ++ [(t, d)]) = some d := by
  unfold snapshotAt
  rw [List.find?_append]
  have hnone : tbl.find? (fun e => e.1 = t) = none := by
    rw [List.find?_eq_none]
    intro e he
    simp only [decide_eq_true_eq]
    intro het
    exact hm (List.mem_map.mpr ⟨e, he, het⟩)
  simp [hnone]

/-- C1 counterexample.  The claim says capturing the daily snapshot twice on
one date leaves exactly one row whose data is the second call's.  Through
`createDailySnapshot` (the scheduled job and the manual `snapshot` trigger)
the second call is a no-op: starting from an empty table and capturing data
with overall score 10 and then data with overall score 20 on the same date
leaves the FIRST call's data in place, not the second's. -/
theorem createDailySnapshot_rerun_not_superseded :
    snapshotAt 0 (createDailySnapshot 0 ⟨0, 0, 0, 0, 0, 0, 0, 0, 0, 0, 0, 0, 0, 0, 0, 20⟩
        (createDailySnapshot 0 ⟨0, 0, 0, 0, 0, 0, 0, 0, 0, 0, 0, 0, 0, 0, 0, 10⟩ [])) ≠
      some ⟨0, 0, 0, 0, 0, 0, 0, 0, 0, 0, 0, 0, 0, 0, 0, 20⟩ ∧
    snapshotAt 0 (createDailySnapshot 0 ⟨0, 0, 0, 0, 0, 0, 0, 0, 0, 0, 0, 0, 0, 0, 0, 20⟩
        (createDailySnapshot 0 ⟨0, 0, 0, 0, 0, 0, 0, 0, 0, 0, 0, 0, 0, 0, 0, 10⟩ [])) =
      some ⟨0, 0, 0, 0, 0, 0, 0, 0, 0, 0, 0, 0, 0, 0, 0, 10⟩ := by decide

/-- C1 (amended).  Capturing the daily snapshot twice on the same calendar
date produces exactly one `DailySnapshot` row for that date (given the
date-uniqueness invariant on the pre-state), but which call's data survives
depends on the path: the `POST /api/trends/snapshot` upsert stores the second
call's data (supersedes), while `createDailySnapshot` — the scheduled job and
manual trigger — is a no-op when the row exists, retaining the first call's
data. -/
theorem snapshot_capture_unique_per_date :
    (∀ (t : ℤ) (d : SnapshotData) (tbl : SnapTable), snapshotCount t tbl ≤ 1 →
        snapshotCount t (createDailySnapshot t d tbl) = 1) ∧
    (∀ (t : ℤ) (d : SnapshotData) (tbl : SnapTable), snapshotCount t tbl ≤ 1 →
        snapshotCount t (upsertSnapshot t d tbl) = 1) ∧
    (∀ (t : ℤ) (d1 d2 : SnapshotData) (tbl : SnapTable),
        snapshotAt t (upsertSnapshot t d2 (upsertSnapshot t d1 tbl)) = some d2) ∧
    (∀ (t : ℤ) (d1 d2 : SnapshotData) (tbl : SnapTable), t ∉ tbl.map Prod.fst →
        snapshotAt t (createDailySnapshot t d2 (createDailySnapshot t d1 tbl)) = some d1) := by
  have hups : ∀ (t : ℤ) (d : SnapshotData) (tbl : SnapTable),
      snapshotAt t (upsertSnapshot t d tbl) = some d := by
    intro t d tbl
    unfold upsertSnapshot
    by_cases hm : t ∈ tbl.map Prod.fst
    · rw [if_pos hm]
      exact snapshotAt_overwrite t d tbl hm
    · rw [if_neg hm]
      exact snapshotAt_append_self t d tbl hm
  refine ⟨?_, ?_, ?_, ?_⟩
  · intro t d tbl h
    unfold createDailySnapshot
    by_cases hm : t ∈ tbl.map Prod.fst
    · rw [if_pos hm]
      have := (snapshotCount_pos_iff t tbl).mp hm
      omega
    · rw [if_neg hm]
      have h0 : snapshotCount t tbl = 0 := by
        by_contra hne
        exact hm ((snapshotCount_pos_iff t tbl).mpr (by omega))
      rw [snapshotCount_append_self, h0]
  · intro t d tbl h
    unfold upsertSnapshot
    by_cases hm : t ∈ tbl.map Prod.fst
    · rw [if_pos hm, snapshotCount_overwrite]
      have := (snapshotCount_pos_iff t tbl).mp hm
      omega
    · rw [if_neg hm]
      have h0 : snapshotCount t tbl = 0 := by
        by_contra hne
        exact hm ((snapshotCount_pos_iff t tbl).mpr (by omega))
      rw [snapshotCount_append_self, h0]
  · intro t d1 d2 tbl
    exact hups t d2 (upsertSnapshot t d1 tbl)
  · intro t d1 d2 tbl hm
    unfold createDailySnapshot
    rw [if_neg hm]
    have hm2 : t ∈ (tbl ++ [(t, d1)]).map Prod.fst := by simp
    rw [if_pos hm2]
    exact snapshotAt_append_self t d1 tbl hm

/-- C1 witness: both capture paths run twice on date 0 from the empty table;
each leaves exactly one row, the upsert path keeping the second data and the
create path the first. -/
theorem snapshot_capture_unique_per_date_check :
    snapshotCount 0 ([] : SnapTable) ≤ 1 ∧
    snapshotCount 0 (createDailySnapshot 0 ⟨0, 0, 0, 0, 0, 0, 0, 0, 0, 0, 0, 0, 0, 0, 0, 5⟩
      ([] : SnapTable)) = 1 ∧
    snapshotCount 0 (upsertSnapshot 0 ⟨0, 0, 0, 0, 0, 0, 0, 0, 0, 0, 0, 0, 0, 0, 0, 5⟩
      ([] : SnapTable)) = 1 ∧
    snapshotAt 0 (upsertSnapshot 0 ⟨0, 0, 0, 0, 0, 0, 0, 0, 0, 0, 0, 0, 0, 0, 0, 7⟩
        (upsertSnapshot 0 ⟨0, 0, 0, 0, 0, 0, 0, 0, 0, 0, 0, 0, 0, 0, 0, 5⟩ ([] : SnapTable))) =
      some ⟨0, 0, 0, 0, 0, 0, 0, 0, 0, 0, 0, 0, 0, 0, 0, 7⟩ ∧
    ((0 : ℤ) ∉ (([] : SnapTable)).map Prod.fst) ∧
    snapshotAt 0 (createDailySnapshot 0 ⟨0, 0, 0, 0, 0, 0, 0, 0, 0, 0, 0, 0, 0, 0, 0, 7⟩
        (createDailySnapshot 0 ⟨0, 0, 0, 0, 0, 0, 0, 0, 0, 0, 0, 0, 0, 0, 0, 5⟩
          ([] : SnapTable))) =
      some ⟨0, 0, 0, 0, 0, 0, 0, 0, 0, 0, 0, 0, 0, 0, 0, 5⟩ :=
  ⟨by decide,
    snapshot_capture_unique_per_date.1 0 ⟨0, 0, 0, 0, 0, 0, 0, 0, 0, 0, 0, 0, 0, 0, 0, 5⟩ []
      (by decide),
    snapshot_capture_unique_per_date.2.1 0 ⟨0, 0, 0, 0, 0, 0, 0, 0, 0, 0, 0, 0, 0, 0, 0, 5⟩ []
      (by decide),
    snapshot_capture_unique_per_date.2.2.1 0 ⟨0, 0, 0, 0, 0, 0, 0, 0, 0, 0, 0, 0, 0, 0, 0, 5⟩
      ⟨0, 0, 0, 0, 0, 0, 0, 0, 0, 0, 0, 0, 0, 0, 0, 7⟩ [],
    by decide,
    snapshot_capture_unique_per_date.2.2.2 0 ⟨0, 0, 0, 0, 0, 0, 0, 0, 0, 0, 0, 0, 0, 0, 0, 5⟩
      ⟨0, 0, 0, 0, 0, 0, 0, 0, 0, 0, 0, 0, 0, 0, 0, 7⟩ [] (by decide)⟩

/-! ## C8: device feed fan-out parsing -/

/-- C8.  The device reconciler splits the name field on `"; "`, trims each
name and skips empty entries (general part), and on the spec's example row it
produces exactly two `DeviceRecord`s, `(router-1, 10.0.0.1)` and
`(router-2, 10.0.0.2)`, both with priority `P0-Immediate` and maxCvss 9.8
(concrete part). -/
theorem ncm_fanout_parsing :
    (∀ (row : NCMRawRow), ∀ d ∈ parseNCMRow row,
        d.deviceName ≠ "" ∧
        d.deviceName ∈ (splitSemiStr row.AllDeviceNames).map jsTrimStr) ∧
    ((parseNCMRow ncmRowTwoRouters).map Device.deviceName = ["router-1", "router-2"] ∧
      (parseNCMRow ncmRowTwoRouters).map Device.deviceIp =
        [some "10.0.0.1", some "10.0.0.2"] ∧
      (parseNCMRow ncmRowTwoRouters).map Device.updatePriority =
        ["P0-Immediate", "P0-Immediate"] ∧
      (parseNCMRow ncmRowTwoRouters).map Device.maxCvss = [49/5, 49/5] ∧
      (parseNCMRow ncmRowTwoRouters).length = 2) := by
  constructor
  · intro row d hd
    unfold parseNCMRow at hd
    by_cases hn : row.AllDeviceNames = ""
    · rw [if_pos hn] at hd
      simp at hd
    · rw [if_neg hn] at hd
      obtain ⟨i, hi, hf⟩ := List.mem_filterMap.mp hd
      dsimp only at hf
      by_cases hname : jsTrimStr ((splitSemiStr row.AllDeviceNames).getD i "") = ""
      · rw [if_pos hname] at hf
        exact absurd hf (by simp)
      · rw [if_neg hname] at hf
        have hd' := Option.some.inj hf
        have hi' : i < (splitSemiStr row.AllDeviceNames).length := List.mem_range.mp hi
        have hmem : (splitSemiStr row.AllDeviceNames).getD i "" ∈
            splitSemiStr row.AllDeviceNames := by
          rw [List.getD_eq_getElem _ _ hi']
          exact List.getElem_mem hi'
        constructor
        · rw [← hd']
          exact hname
        · rw [← hd']
          exact List.mem_map.mpr ⟨_, hmem, rfl⟩
  · refine ⟨by decide, by decide, by decide, ?_, by decide⟩
    have hq : (parseNCMRow ncmRowTwoRouters).map Device.maxCvss =
        [((9 : ℕ) : ℚ) + ((8 : ℕ) : ℚ) / (10 : ℚ) ^ (1 : ℕ),
          ((9 : ℕ) : ℚ) + ((8 : ℕ) : ℚ) / (10 : ℚ) ^ (1 : ℕ)] := rfl
    rw [hq]
    norm_num

/-- C8 witness: the general conjunct instantiated at the single-device row
and the device it produces. -/
theorem ncm_fanout_parsing_check :
    ((⟨"dev-w", none, none, none, none, "P3-Monitor", 0, 0, 0, 0, none⟩ : Device) ∈
        parseNCMRow ncmRowSingle) ∧
    ((⟨"dev-w", none, none, none, none, "P3-Monitor", 0, 0, 0, 0, none⟩ : Device).deviceName
        ≠ "" ∧
      (⟨"dev-w", none, none, none, none, "P3-Monitor", 0, 0, 0, 0, none⟩ :
          Device).deviceName ∈ (splitSemiStr ncmRowSingle.AllDeviceNames).map jsTrimStr) :=
  ⟨by decide, ncm_fanout_parsing.1 ncmRowSingle _ (by decide)⟩

/-! ## C10: duplicate keys within one device sync run -/

/-- C10.  When the feed's fanned-out entries repeat a (name, ip) key that is
not already persisted, one run of `syncNCM` creates one row per occurrence
(the existing-key map is built once, before the create loop), and the
returned count equals the number of fanned-out entries (2), not the number of
distinct keys (1). -/
theorem syncNCM_duplicate_entries_create_duplicate_rows :
    (syncNCMRun 0 [ncmRowDupA] ⟨0, []⟩).rows.map nkey = ["dup-a|", "dup-a|"] ∧
    (syncNCMRun 0 [ncmRowDupA] ⟨0, []⟩).rows.length = 2 ∧
    (syncNCM (.ok [ncmRowDupA]) 0 ⟨0, []⟩ []).2.2.count = 2 ∧
    ((parseNCM [ncmRowDupA]).map dkey).dedup.length = 1 := by decide

/-! ## Lemmas about `mapLookup` -/

theorem mapLookup_cons {α β : Type} (key : α → String) (val : α → β) (x : α) (xs : List α)
    (k : String) :
    mapLookup key val (x :: xs) k =
      match mapLookup key val xs k with
      | some v => some v
      | none => if key x = k then some (val x) else none := rfl

theorem mapLookup_eq_none {α β : Type} (key : α → String) (val : α → β) (l : List α)
    (k : String) :
    mapLookup key val l k = none ↔ ∀ x ∈ l, key x ≠ k := by
  induction l with
  | nil => simp [mapLookup]
  | cons x xs ih =>
      rw [mapLookup_cons]
      cases hm : mapLookup key val xs k with
      | some v =>
          constructor
          · intro h
            exact absurd h (by simp)
          · intro h
            have hn := ih.mpr (fun y hy => h y (List.mem_cons_of_mem x hy))
            rw [hn] at hm
            cases hm
      | none =>
          constructor
          · intro h y hy
            rcases List.mem_cons.mp hy with rfl | hy2
            · intro hk
              rw [if_pos hk] at h
              cases h
            · exact (ih.mp hm) y hy2
          · intro h
            rw [if_neg (h x (List.mem_cons_self x xs))]

theorem mapLookup_eq_none_iff {α β : Type} (key : α → String) (val : α → β) (l : List α)
    (k : String) :
    mapLookup key val l k = none ↔ k ∉ l.map key := by
  rw [mapLookup_eq_none]
  simp only [List.mem_map, not_exists, not_and]

theorem mapLookup_mem {α β : Type} (key : α → String) (val : α → β) (l : List α)
    (k : String) {v : β} (h : mapLookup key val l k = some v) :
    ∃ x ∈ l, key x = k ∧ val x = v := by
  induction l with
  | nil => cases h
  | cons x xs ih =>
      rw [mapLookup_cons] at h
      cases hm : mapLookup key val xs k with
      | some w =>
          rw [hm] at h
          have h' : w = v := by injection h
          obtain ⟨y, hy, hk, hv⟩ := ih (by rw [hm, h'])
          exact ⟨y, List.mem_cons_of_mem x hy, hk, hv⟩
      | none =>
          rw [hm] at h
          by_cases hk : key x = k
          · rw [if_pos hk] at h
            injection h with h'
            exact ⟨x, List.mem_cons_self x xs, hk, h'⟩
          · rw [if_neg hk] at h
            cases h

/-! ## Lemmas about the `syncNCM` reconciliation fold -/

theorem ncm_apply_some (pre : List NCMRow) (now : ℤ) (st : NCMTable) (d : Device) {i : ℕ}
    (hl : mapLookup nkey NCMRow.id pre (dkey d) = some i) :
    ncmApplyDevice pre now st d =
      ⟨st.nextId, st.rows.map (fun r => if r.id = i then ⟨r.id, d, now⟩ else r)⟩ := by
  unfold ncmApplyDevice
  rw [hl]

theorem ncm_apply_none (pre : List NCMRow) (now : ℤ) (st : NCMTable) (d : Device)
    (hl : mapLookup nkey NCMRow.id pre (dkey d) = none) :
    ncmApplyDevice pre now st d = ⟨st.nextId + 1, st.rows ++ [⟨st.nextId, d, now⟩]⟩ := by
  unfold ncmApplyDevice
  rw [hl]

/-- Rows of distinct ids are uniquely determined by their id. -/
theorem ncm_id_inj {l : List NCMRow} (h : (l.map NCMRow.id).Nodup) {a b : NCMRow}
    (ha : a ∈ l) (hb : b ∈ l) (hab : a.id = b.id) : a = b :=
  List.inj_on_of_nodup_map h ha hb hab

/-- Central fold lemma: the key multiset of the table after the `syncNCM`
upsert loop is the starting key list extended by the keys of the devices that
miss the pre-transaction map, in order.  The invariants say that every
current row sharing an id with a pre-transaction row still carries that row's
key, and that pre-transaction ids stay below the allocator. -/
theorem ncm_fold_keys (pre : List NCMRow) (hId : (pre.map NCMRow.id).Nodup) (now : ℤ) :
    ∀ (ds : List Device) (st : NCMTable),
      (∀ r ∈ st.rows, ∀ r0 ∈ pre, r.id = r0.id → nkey r = nkey r0) →
      (∀ r0 ∈ pre, r0.id < st.nextId) →
      (ds.foldl (ncmApplyDevice pre now) st).rows.map nkey =
        st.rows.map nkey ++
          (ds.filter (fun d => (mapLookup nkey NCMRow.id pre (dkey d)).isNone)).map dkey := by
  intro ds
  induction ds with
  | nil =>
      intro st h1 h2
      simp
  | cons d rest ih =>
      intro st h1 h2
      rw [List.foldl_cons]
      cases hl : mapLookup nkey NCMRow.id pre (dkey d) with
      | some i =>
          obtain ⟨r1, hr1, hk1, hv1⟩ := mapLookup_mem nkey NCMRow.id pre (dkey d) hl
          rw [ncm_apply_some pre now st d hl]
          have h1' : ∀ r' ∈ st.rows.map (fun r => if r.id = i then (⟨r.id, d, now⟩ : NCMRow)
              else r), ∀ r0 ∈ pre, r'.id = r0.id → nkey r' = nkey r0 := by
            intro r' hr' r0 hr0 hid
            obtain ⟨r, hr, hgr⟩ := List.mem_map.mp hr'
            by_cases hri : r.id = i
            · rw [if_pos hri] at hgr
              rw [← hgr] at hid ⊢
              have hr0r1 : r0 = r1 := ncm_id_inj hId hr0 hr1 (by
                show r0.id = r1.id
                rw [← hid, hri, hv1])
              show dkey d = nkey r0
              rw [hr0r1, hk1]
            · rw [if_neg hri] at hgr
              rw [← hgr] at hid ⊢
              exact h1 r hr r0 hr0 hid
          have hkeys : (st.rows.map (fun r => if r.id = i then (⟨r.id, d, now⟩ : NCMRow)
              else r)).map nkey = st.rows.map nkey := by
            rw [List.map_map]
            apply List.map_congr_left
            intro r hr
            by_cases hri : r.id = i
            · show nkey (if r.id = i then (⟨r.id, d, now⟩ : NCMRow) else r) = nkey r
              rw [if_pos hri]
              show dkey d = nkey r
              rw [← hk1]
              exact (h1 r hr r1 hr1 (hri.trans hv1.symm)).symm
            · show nkey (if r.id = i then (⟨r.id, d, now⟩ : NCMRow) else r) = nkey r
              rw [if_neg hri]
          rw [ih ⟨st.nextId, _⟩ h1' h2, hkeys]
          have hfd : (List.filter (fun d => (mapLookup nkey NCMRow.id pre (dkey d)).isNone)
              (d :: rest)) = rest.filter
                (fun d => (mapLookup nkey NCMRow.id pre (dkey d)).isNone) := by
            rw [List.filter_cons]
            simp [hl]
          rw [hfd]
      | none =>
          rw [ncm_apply_none pre now st d hl]
          have h1' : ∀ r' ∈ st.rows ++ [(⟨st.nextId, d, now⟩ : NCMRow)], ∀ r0 ∈ pre,
              r'.id = r0.id → nkey r' = nkey r0 := by
            intro r' hr' r0 hr0 hid
            rcases List.mem_append.mp hr' with hr1 | hr2
            · exact h1 r' hr1 r0 hr0 hid
            · have : r' = ⟨st.nextId, d, now⟩ := by simpa using hr2
              rw [this] at hid
              exact absurd hid.symm (Nat.ne_of_lt (h2 r0 hr0))
          have h2' : ∀ r0 ∈ pre, r0.id < st.nextId + 1 := by
            intro r0 hr0
            exact Nat.lt_succ_of_lt (h2 r0 hr0)
          rw [ih ⟨st.nextId + 1, _⟩ h1' h2']
          have hfd : (List.filter (fun d => (mapLookup nkey NCMRow.id pre (dkey d)).isNone)
              (d :: rest)) = d :: rest.filter
                (fun d => (mapLookup nkey NCMRow.id pre (dkey d)).isNone) := by
            rw [List.filter_cons]
            simp [hl]
          rw [hfd]
          simp [nkey]

theorem map_filter_comp {α β : Type} (f : α → β) (p : β → Bool) (l : List α) :
    (l.filter (fun a => p (f a))).map f = (l.map f).filter p := by
  induction l with
  | nil => rfl
  | cons x xs ih =>
      by_cases h : p (f x)
      · simp [List.filter_cons, h, ih]
      · simp [List.filter_cons, h, ih]

theorem length_filter_mem_add {E F : List String} (hE : E.Nodup) (hF : F.Nodup) :
    (E.filter (fun k => k ∈ F)).length + (F.filter (fun k => k ∉ E)).length = F.length := by
  have e1 : (E.filter (fun k => k ∈ F)).toFinset = E.toFinset ∩ F.toFinset := by
    ext a
    simp [List.mem_filter]
  have e2 : (F.filter (fun k => k ∈ E)).toFinset = F.toFinset ∩ E.toFinset := by
    ext a
    simp [List.mem_filter]
  have c1 : (E.filter (fun k => k ∈ F)).length = (E.toFinset ∩ F.toFinset).card := by
    rw [← e1, List.toFinset_card_of_nodup (hE.filter _)]
  have c2 : (F.filter (fun k => k ∈ E)).length = (F.toFinset ∩ E.toFinset).card := by
    rw [← e2, List.toFinset_card_of_nodup (hF.filter _)]
  have hcomm : (E.filter (fun k => k ∈ F)).length = (F.filter (fun k => k ∈ E)).length := by
    rw [c1, c2, Finset.inter_comm]
  have hsplit : (F.filter (fun k => k ∈ E)).length + (F.filter (fun k => k ∉ E)).length
      = F.length := by
    have hp := (List.filter_append_perm (fun k => decide (k ∈ E)) F).length_eq
    rw [List.length_append] at hp
    have hcg : F.filter (fun k => !decide (k ∈ E)) = F.filter (fun k => k ∉ E) := by
      apply List.filter_congr
      intro a _
      simp
    rw [hcg] at hp
    exact hp
  rw [hcomm]
  exact hsplit

theorem ncm_kept_filter (tbl : NCMTable) (newKeys : List String)
    (hId : (tbl.rows.map NCMRow.id).Nodup) :
    tbl.rows.filter (fun r => r.id ∉ ncmIdsToDelete tbl.rows newKeys) =
      tbl.rows.filter (fun r => nkey r ∈ newKeys) := by
  apply List.filter_congr
  intro r hr
  rw [decide_eq_decide]
  unfold ncmIdsToDelete
  constructor
  · intro hnot
    by_contra hkn
    exact hnot (List.mem_map.mpr ⟨r, List.mem_filter.mpr ⟨hr, by simpa using hkn⟩, rfl⟩)
  · intro hk hmem
    obtain ⟨r', hr', hid⟩ := List.mem_map.mp hmem
    have hr'2 := List.mem_filter.mp hr'
    have heq : r' = r := ncm_id_inj hId hr'2.1 hr hid
    have := hr'2.2
    rw [heq] at this
    simp at this
    exact this hk

/-! ## C2: device mirror invariant -/

/-- C2 counterexample.  The claim says the persisted device count after
`syncNCM` equals the number of keys in the feed.  A feed whose fan-out
repeats one new key produces two persisted rows for one key: the count is the
number of occurrences, not the number of keys. -/
theorem syncNCM_mirror_count_fails_on_duplicates :
    (syncNCMRun 0 [ncmRowDupB] ⟨0, []⟩).rows.length = 2 ∧
    ((parseNCM [ncmRowDupB]).map dkey).dedup.length = 1 := by decide

/-- C2 (amended).  For a well-formed persisted table (distinct row ids below
the allocator, distinct keys) and a feed whose fanned-out entries carry
pairwise-distinct (deviceName, deviceIp) keys, a successful `syncNCM` run
leaves the persisted key set exactly equal to the feed's key set — every
persisted key comes from the feed (removed keys are deleted), every feed key
is persisted — and the persisted row count equals the number of keys in the
feed. -/
theorem syncNCM_mirror (now : ℤ) (feed : List NCMRawRow) (tbl : NCMTable)
    (hId : (tbl.rows.map NCMRow.id).Nodup)
    (hB : ∀ r ∈ tbl.rows, r.id < tbl.nextId)
    (hE : (tbl.rows.map nkey).Nodup)
    (hK : ((parseNCM feed).map dkey).Nodup) :
    (∀ r ∈ (syncNCMRun now feed tbl).rows, nkey r ∈ (parseNCM feed).map dkey) ∧
    (∀ k ∈ (parseNCM feed).map dkey, ∃ r ∈ (syncNCMRun now feed tbl).rows, nkey r = k) ∧
    (syncNCMRun now feed tbl).rows.length = (parseNCM feed).length := by
  have hkept1 : ∀ r ∈ tbl.rows.filter
      (fun r => r.id ∉ ncmIdsToDelete tbl.rows ((parseNCM feed).map dkey)),
      ∀ r0 ∈ tbl.rows, r.id = r0.id → nkey r = nkey r0 := by
    intro r hr r0 hr0 hid
    have hrT : r ∈ tbl.rows := List.mem_of_mem_filter hr
    rw [ncm_id_inj hId hrT hr0 hid]
  have hkeys := ncm_fold_keys tbl.rows hId now (parseNCM feed)
    ⟨tbl.nextId, tbl.rows.filter
      (fun r => r.id ∉ ncmIdsToDelete tbl.rows ((parseNCM feed).map dkey))⟩ hkept1 hB
  have hrun : (syncNCMRun now feed tbl).rows =
      ((parseNCM feed).foldl (ncmApplyDevice tbl.rows now)
        ⟨tbl.nextId, tbl.rows.filter
          (fun r => r.id ∉ ncmIdsToDelete tbl.rows ((parseNCM feed).map dkey))⟩).rows := rfl
  have hkeyeq : (syncNCMRun now feed tbl).rows.map nkey =
      (tbl.rows.filter (fun r => nkey r ∈ (parseNCM feed).map dkey)).map nkey ++
        ((parseNCM feed).filter
          (fun d => (mapLookup nkey NCMRow.id tbl.rows (dkey d)).isNone)).map dkey := by
    rw [hrun, hkeys, ncm_kept_filter tbl ((parseNCM feed).map dkey) hId]
  refine ⟨?_, ?_, ?_⟩
  · intro r hr
    have hmem : nkey r ∈ (syncNCMRun now feed tbl).rows.map nkey :=
      List.mem_map.mpr ⟨r, hr, rfl⟩
    rw [hkeyeq] at hmem
    rcases List.mem_append.mp hmem with hk1 | hk2
    · obtain ⟨r', hr', hkr⟩ := List.mem_map.mp hk1
      have := (List.mem_filter.mp hr').2
      rw [← hkr]
      simpa using this
    · obtain ⟨d, hd, hkd⟩ := List.mem_map.mp hk2
      have hdM : d ∈ parseNCM feed := List.mem_of_mem_filter hd
      rw [← hkd]
      exact List.mem_map.mpr ⟨d, hdM, rfl⟩
  · intro k hk
    obtain ⟨d0, hd0, hkd0⟩ := List.mem_map.mp hk
    have hkK : k ∈ (syncNCMRun now feed tbl).rows.map nkey := by
      rw [hkeyeq]
      cases hl : mapLookup nkey NCMRow.id tbl.rows k with
      | some i =>
          obtain ⟨r1, hr1, hk1, _⟩ := mapLookup_mem nkey NCMRow.id tbl.rows k hl
          apply List.mem_append.mpr
          left
          exact List.mem_map.mpr ⟨r1, List.mem_filter.mpr ⟨hr1, by simp [hk1, hk]⟩, hk1⟩
      | none =>
          apply List.mem_append.mpr
          right
          apply List.mem_map.mpr
          refine ⟨d0, List.mem_filter.mpr ⟨hd0, ?_⟩, hkd0⟩
          rw [hkd0, hl]
          rfl
    obtain ⟨r, hr, hkr⟩ := List.mem_map.mp hkK
    exact ⟨r, hr, hkr⟩
  · have hlen : (syncNCMRun now feed tbl).rows.length =
        ((syncNCMRun now feed tbl).rows.map nkey).length := (List.length_map _ _).symm
    have hfd : (parseNCM feed).filter
        (fun d => (mapLookup nkey NCMRow.id tbl.rows (dkey d)).isNone) =
        (parseNCM feed).filter (fun d => dkey d ∉ tbl.rows.map nkey) := by
      apply List.filter_congr
      intro d _
      cases hl : mapLookup nkey NCMRow.id tbl.rows (dkey d) with
      | some i =>
          have hmem : dkey d ∈ tbl.rows.map nkey := by
            by_contra hno
            rw [← mapLookup_eq_none_iff nkey NCMRow.id tbl.rows (dkey d)] at hno
            rw [hno] at hl
            cases hl
          simp [hmem]
      | none =>
          have hno : dkey d ∉ tbl.rows.map nkey :=
            (mapLookup_eq_none_iff nkey NCMRow.id tbl.rows (dkey d)).mp hl
          simp [hno]
    have h1 : (tbl.rows.filter (fun r => nkey r ∈ (parseNCM feed).map dkey)).map nkey =
        (tbl.rows.map nkey).filter (fun k => k ∈ (parseNCM feed).map dkey) :=
      map_filter_comp nkey (fun k => decide (k ∈ (parseNCM feed).map dkey)) tbl.rows
    have e2 : (((parseNCM feed).filter
          (fun d => dkey d ∉ tbl.rows.map nkey)).map dkey).length =
        (((parseNCM feed).map dkey).filter (fun k => k ∉ tbl.rows.map nkey)).length := by
      rw [map_filter_comp dkey (fun k => decide (k ∉ tbl.rows.map nkey)) (parseNCM feed)]
    rw [hlen, hkeyeq, List.length_append, hfd, h1, e2, length_filter_mem_add hE hK,
      List.length_map]

/-- C2 witness: a table holding one stale device (key `old|`) reconciled
against a single-device feed (key `dev-w|`): the stale row is deleted and the
row count equals the feed's key count. -/
theorem syncNCM_mirror_check :
    (((⟨1, [⟨0, ⟨"old", none, none, none, none, "P3-Monitor", 0, 0, 0, 0, none⟩, 0⟩]⟩ :
        NCMTable).rows.map NCMRow.id).Nodup) ∧
    (((⟨1, [⟨0, ⟨"old", none, none, none, none, "P3-Monitor", 0, 0, 0, 0, none⟩, 0⟩]⟩ :
        NCMTable).rows.map nkey).Nodup) ∧
    (((parseNCM [ncmRowSingle]).map dkey).Nodup) ∧
    (syncNCMRun 5 [ncmRowSingle]
        ⟨1, [⟨0, ⟨"old", none, none, none, none, "P3-Monitor", 0, 0, 0, 0, none⟩, 0⟩]⟩).rows.length
      = (parseNCM [ncmRowSingle]).length :=
  ⟨by decide, by decide, by decide,
    (syncNCM_mirror 5 [ncmRowSingle]
      ⟨1, [⟨0, ⟨"old", none, none, none, none, "P3-Monitor", 0, 0, 0, 0, none⟩, 0⟩]⟩
      (by decide) (by decide) (by decide) (by decide)).2.2⟩

/-! ## Lemmas about the `syncEDR` upsert fold -/

theorem edr_apply_some (iso : ℤ → String) (pre : List EDRRow) (now : ℤ) (st : EDRTable)
    (a : EDRAlert) {i : ℕ}
    (hl : mapLookup (ekey iso) EDRRow.id pre (akey iso a) = some i) :
    edrApplyAlert iso pre now st a =
      ⟨st.nextId, st.rows.map (fun r =>
        if r.id = i then { r with vtVerdict := a.vtVerdict, syncedAt := now } else r)⟩ := by
  unfold edrApplyAlert
  rw [hl]

theorem edr_apply_none (iso : ℤ → String) (pre : List EDRRow) (now : ℤ) (st : EDRTable)
    (a : EDRAlert)
    (hl : mapLookup (ekey iso) EDRRow.id pre (akey iso a) = none) :
    edrApplyAlert iso pre now st a =
      ⟨st.nextId + 1,
        st.rows ++ [⟨st.nextId, a.hostname, a.detectedAt, a.fileSha256, a.severity, a.ioaName,
          a.domain, a.filePath, a.vtVerdict, "new", none, none, now⟩]⟩ := by
  unfold edrApplyAlert
  rw [hl]

/-- The verdict-and-timestamp update keeps every row's reconciliation key. -/
theorem edr_update_keeps_key (iso : ℤ → String) (now : ℤ) (a : EDRAlert) (i : ℕ)
    (r : EDRRow) :
    ekey iso (if r.id = i then { r with vtVerdict := a.vtVerdict, syncedAt := now } else r)
      = ekey iso r := by
  by_cases hri : r.id = i
  · rw [if_pos hri]
    rfl
  · rw [if_neg hri]

/-- Key multiset after the `syncEDR` upsert loop: the starting keys extended
by the keys of the alerts missing from the pre-run map. -/
theorem edr_fold_keys (iso : ℤ → String) (pre : List EDRRow) (now : ℤ) :
    ∀ (ds : List EDRAlert) (st : EDRTable),
      ((ds.foldl (edrApplyAlert iso pre now) st).rows.map (ekey iso)) =
        st.rows.map (ekey iso) ++
          (ds.filter (fun a =>
            (mapLookup (ekey iso) EDRRow.id pre (akey iso a)).isNone)).map (akey iso) := by
  intro ds
  induction ds with
  | nil =>
      intro st
      simp
  | cons a rest ih =>
      intro st
      rw [List.foldl_cons]
      cases hl : mapLookup (ekey iso) EDRRow.id pre (akey iso a) with
      | some i =>
          rw [edr_apply_some iso pre now st a hl, ih]
          have hkeys : (st.rows.map (fun r =>
              if r.id = i then { r with vtVerdict := a.vtVerdict, syncedAt := now } else r)).map
                (ekey iso) = st.rows.map (ekey iso) := by
            rw [List.map_map]
            apply List.map_congr_left
            intro r _
            exact edr_update_keeps_key iso now a i r
          rw [hkeys, List.filter_cons]
          simp [hl]
      | none =>
          rw [edr_apply_none iso pre now st a hl, ih]
          rw [List.filter_cons]
          have : ekey iso (⟨st.nextId, a.hostname, a.detectedAt, a.fileSha256, a.severity,
              a.ioaName, a.domain, a.filePath, a.vtVerdict, "new", none, none, now⟩ : EDRRow)
              = akey iso a := rfl
          simp [hl, this]

/-- Every pre-run row keeps a successor row agreeing on all analyst-owned
fields through the upsert loop. -/
theorem edr_fold_frame (iso : ℤ → String) (pre : List EDRRow) (now : ℤ) :
    ∀ (ds : List EDRAlert) (st : EDRTable) (r0 : EDRRow),
      (∃ r' ∈ st.rows, edrAgrees r0 r') →
      ∃ r' ∈ (ds.foldl (edrApplyAlert iso pre now) st).rows, edrAgrees r0 r' := by
  intro ds
  induction ds with
  | nil =>
      intro st r0 h
      simpa using h
  | cons a rest ih =>
      intro st r0 h
      rw [List.foldl_cons]
      apply ih
      obtain ⟨r', hr', hag⟩ := h
      cases hl : mapLookup (ekey iso) EDRRow.id pre (akey iso a) with
      | some i =>
          rw [edr_apply_some iso pre now st a hl]
          refine ⟨if r'.id = i then { r' with vtVerdict := a.vtVerdict, syncedAt := now }
            else r', List.mem_map.mpr ⟨r', hr', rfl⟩, ?_⟩
          by_cases hri : r'.id = i
          · rw [if_pos hri]
            obtain ⟨h1, h2, h3, h4, h5, h6, h7, h8, h9, h10, h11⟩ := hag
            exact ⟨h1, h2, h3, h4, h5, h6, h7, h8, h9, h10, h11⟩
          · rw [if_neg hri]
            exact hag
      | none =>
          rw [edr_apply_none iso pre now st a hl]
          exact ⟨r', List.mem_append.mpr (Or.inl hr'), hag⟩

/-- Rows carrying an id foreign to the pre-run table have workflow status
`new` after the upsert loop, provided that held before it. -/
theorem edr_fold_new_status (iso : ℤ → String) (pre : List EDRRow) (now : ℤ) :
    ∀ (ds : List EDRAlert) (st : EDRTable),
      (∀ r0 ∈ pre, r0.id < st.nextId) →
      (∀ r' ∈ st.rows, (∀ r0 ∈ pre, r'.id ≠ r0.id) → r'.status = "new") →
      (∀ r0 ∈ pre, r0.id < (ds.foldl (edrApplyAlert iso pre now) st).nextId) ∧
      (∀ r' ∈ (ds.foldl (edrApplyAlert iso pre now) st).rows,
        (∀ r0 ∈ pre, r'.id ≠ r0.id) → r'.status = "new") := by
  intro ds
  induction ds with
  | nil =>
      intro st hb h
      exact ⟨hb, h⟩
  | cons a rest ih =>
      intro st hb h
      rw [List.foldl_cons]
      cases hl : mapLookup (ekey iso) EDRRow.id pre (akey iso a) with
      | some i =>
          rw [edr_apply_some iso pre now st a hl]
          apply ih
          · exact hb
          · intro r' hr' hfr
            obtain ⟨r, hr, hgr⟩ := List.mem_map.mp hr'
            by_cases hri : r.id = i
            · rw [if_pos hri] at hgr
              rw [← hgr]
              show r.status = "new"
              apply h r hr
              intro r0 hr0
              have : r'.id = r.id := by rw [← hgr]
              rw [← this]
              exact hfr r0 hr0
            · rw [if_neg hri] at hgr
              rw [← hgr]
              apply h r hr
              intro r0 hr0
              rw [hgr]
              exact hfr r0 hr0
      | none =>
          rw [edr_apply_none iso pre now st a hl]
          apply ih
          · intro r0 hr0
            exact Nat.lt_succ_of_lt (hb r0 hr0)
          · intro r' hr' hfr
            rcases List.mem_append.mp hr' with h1 | h2
            · exact h r' h1 hfr
            · have : r' = ⟨st.nextId, a.hostname, a.detectedAt, a.fileSha256, a.severity,
                  a.ioaName, a.domain, a.filePath, a.vtVerdict, "new", none, none, now⟩ := by
                simpa using h2
              rw [this]

/-- A row with the stated id, a fresh sync timestamp and a verdict taken from
some alert targeting that id survives the rest of the upsert loop. -/
theorem edr_fold_keep_updated (iso : ℤ → String) (pre : List EDRRow) (now : ℤ)
    (all : List EDRAlert) :
    ∀ (ds : List EDRAlert) (st : EDRTable) (i : ℕ),
      (∀ a ∈ ds, a ∈ all) →
      (∃ r' ∈ st.rows, r'.id = i ∧ r'.syncedAt = now ∧
        ∃ a' ∈ all, mapLookup (ekey iso) EDRRow.id pre (akey iso a') = some i ∧
          r'.vtVerdict = a'.vtVerdict) →
      ∃ r' ∈ (ds.foldl (edrApplyAlert iso pre now) st).rows, r'.id = i ∧ r'.syncedAt = now ∧
        ∃ a' ∈ all, mapLookup (ekey iso) EDRRow.id pre (akey iso a') = some i ∧
          r'.vtVerdict = a'.vtVerdict := by
  intro ds
  induction ds with
  | nil =>
      intro st i _ h
      simpa using h
  | cons c rest ih =>
      intro st i hsub h
      rw [List.foldl_cons]
      apply ih
      · intro a ha
        exact hsub a (List.mem_cons_of_mem c ha)
      · obtain ⟨r', hr', hid, hsync, a', ha', hla', hvt⟩ := h
        cases hl : mapLookup (ekey iso) EDRRow.id pre (akey iso c) with
        | some j =>
            rw [edr_apply_some iso pre now st c hl]
            refine ⟨if r'.id = j then { r' with vtVerdict := c.vtVerdict, syncedAt := now }
              else r', List.mem_map.mpr ⟨r', hr', rfl⟩, ?_⟩
            by_cases hrj : r'.id = j
            · rw [if_pos hrj]
              refine ⟨hid, rfl, c, hsub c (List.mem_cons_self c rest), ?_, rfl⟩
              rw [hid.symm.trans hrj]
              exact hl
            · rw [if_neg hrj]
              exact ⟨hid, hsync, a', ha', hla', hvt⟩
        | none =>
            rw [edr_apply_none iso pre now st c hl]
            exact ⟨r', List.mem_append.mpr (Or.inl hr'), hid, hsync, a', ha', hla', hvt⟩

/-- A row created for an alert key that missed the pre-run map survives the
rest of the upsert loop with its key fields and `new` status intact. -/
theorem edr_fold_keep_created (iso : ℤ → String) (pre : List EDRRow) (now : ℤ)
    (a : EDRAlert) :
    ∀ (ds : List EDRAlert) (st : EDRTable),
      (∃ r' ∈ st.rows, r'.hostname = a.hostname ∧ r'.detectedAt = a.detectedAt ∧
        r'.fileSha256 = a.fileSha256 ∧ r'.status = "new") →
      ∃ r' ∈ (ds.foldl (edrApplyAlert iso pre now) st).rows,
        r'.hostname = a.hostname ∧ r'.detectedAt = a.detectedAt ∧
        r'.fileSha256 = a.fileSha256 ∧ r'.status = "new" := by
  intro ds
  induction ds with
  | nil =>
      intro st h
      simpa using h
  | cons c rest ih =>
      intro st h
      rw [List.foldl_cons]
      apply ih
      obtain ⟨r', hr', h1, h2, h3, h4⟩ := h
      cases hl : mapLookup (ekey iso) EDRRow.id pre (akey iso c) with
      | some j =>
          rw [edr_apply_some iso pre now st c hl]
          refine ⟨if r'.id = j then { r' with vtVerdict := c.vtVerdict, syncedAt := now }
            else r', List.mem_map.mpr ⟨r', hr', rfl⟩, ?_⟩
          by_cases hrj : r'.id = j
          · rw [if_pos hrj]
            exact ⟨h1, h2, h3, h4⟩
          · rw [if_neg hrj]
            exact ⟨h1, h2, h3, h4⟩
      | none =>
          rw [edr_apply_none iso pre now st c hl]
          exact ⟨r', List.mem_append.mpr (Or.inl hr'), h1, h2, h3, h4⟩

/-- Alerts whose key misses the pre-run map produce a created row with their
key fields and status `new`. -/
theorem edr_fold_creates (iso : ℤ → String) (pre : List EDRRow) (now : ℤ) :
    ∀ (ds : List EDRAlert) (st : EDRTable), ∀ a ∈ ds,
      mapLookup (ekey iso) EDRRow.id pre (akey iso a) = none →
      ∃ r' ∈ (ds.foldl (edrApplyAlert iso pre now) st).rows,
        r'.hostname = a.hostname ∧ r'.detectedAt = a.detectedAt ∧
        r'.fileSha256 = a.fileSha256 ∧ r'.status = "new" := by
  intro ds
  induction ds with
  | nil =>
      intro st a ha
      simp at ha
  | cons c rest ih =>
      intro st a ha hl
      rw [List.foldl_cons]
      rcases List.mem_cons.mp ha with rfl | ha2
      · rw [edr_apply_none iso pre now st a hl]
        apply edr_fold_keep_created
        exact ⟨⟨st.nextId, a.hostname, a.detectedAt, a.fileSha256, a.severity, a.ioaName,
          a.domain, a.filePath, a.vtVerdict, "new", none, none, now⟩,
          List.mem_append.mpr (Or.inr (List.mem_singleton.mpr rfl)), rfl, rfl, rfl, rfl⟩
      · exact ih (edrApplyAlert iso pre now st c) a ha2 hl

/-- Alerts whose key hits the pre-run map leave a row with the mapped id
whose sync timestamp is fresh and whose verdict comes from an alert targeting
that id. -/
theorem edr_fold_updates (iso : ℤ → String) (pre : List EDRRow) (now : ℤ)
    (all : List EDRAlert) :
    ∀ (ds : List EDRAlert) (st : EDRTable),
      (∀ a ∈ ds, a ∈ all) →
      (∀ r0 ∈ pre, ∃ r' ∈ st.rows, edrAgrees r0 r') →
      ∀ a ∈ ds, ∀ i, mapLookup (ekey iso) EDRRow.id pre (akey iso a) = some i →
      ∃ r' ∈ (ds.foldl (edrApplyAlert iso pre now) st).rows, r'.id = i ∧ r'.syncedAt = now ∧
        ∃ a' ∈ all, mapLookup (ekey iso) EDRRow.id pre (akey iso a') = some i ∧
          r'.vtVerdict = a'.vtVerdict := by
  intro ds
  induction ds with
  | nil =>
      intro st _ _ a ha
      simp at ha
  | cons c rest ih =>
      intro st hsub hframe a ha i hl
      rw [List.foldl_cons]
      rcases List.mem_cons.mp ha with rfl | ha2
      · rw [edr_apply_some iso pre now st a hl]
        apply edr_fold_keep_updated iso pre now all rest _ i
          (fun b hb => hsub b (List.mem_cons_of_mem a hb))
        obtain ⟨r1, hr1, hk1, hv1⟩ := mapLookup_mem (ekey iso) EDRRow.id pre (akey iso a) hl
        obtain ⟨r'', hr'', hag⟩ := hframe r1 hr1
        have hid : r''.id = i := hag.1.trans hv1
        refine ⟨if r''.id = i then { r'' with vtVerdict := a.vtVerdict, syncedAt := now }
          else r'', List.mem_map.mpr ⟨r'', hr'', rfl⟩, ?_⟩
        rw [if_pos hid]
        exact ⟨hid, rfl, a, hsub a (List.mem_cons_self a rest), hl, rfl⟩
      · apply ih (edrApplyAlert iso pre now st c)
          (fun b hb => hsub b (List.mem_cons_of_mem c hb))
        · intro r0 hr0
          have := edr_fold_frame iso pre now [c] st r0 (hframe r0 hr0)
          simpa using this
        · exact ha2
        · exact hl

/-! ## C4: alert reconciliation frame property -/

/-- C4.  After `syncEDR`: (1) every pre-existing alert row keeps a row with
its id agreeing on hostname, detection time, file hash, severity, rule name,
domain, file path, workflow status, assignee and resolution time — only the
third-party verdict and sync timestamp may change; (2) rows with ids foreign
to the pre-run table carry status `new`; (3) every incoming alert whose key
is absent from the pre-run map yields a created row with its key fields and
status `new`; (4) every incoming alert whose key maps to an existing id
leaves that id holding a fresh sync timestamp and a verdict taken from an
incoming alert targeting the same id. -/
theorem syncEDR_preserves_analyst_fields (iso : ℤ → String) (pde : String → ℤ) (now : ℤ)
    (feed : List EDRRawRow) (tbl : EDRTable)
    (hB : ∀ r0 ∈ tbl.rows, r0.id < tbl.nextId) :
    (∀ r0 ∈ tbl.rows, ∃ r' ∈ (syncEDRRun iso pde now feed tbl).rows, edrAgrees r0 r') ∧
    (∀ r' ∈ (syncEDRRun iso pde now feed tbl).rows,
      (∀ r0 ∈ tbl.rows, r'.id ≠ r0.id) → r'.status = "new") ∧
    (∀ a ∈ parseEDR pde feed,
      mapLookup (ekey iso) EDRRow.id tbl.rows (akey iso a) = none →
        ∃ r' ∈ (syncEDRRun iso pde now feed tbl).rows, r'.hostname = a.hostname ∧
          r'.detectedAt = a.detectedAt ∧ r'.fileSha256 = a.fileSha256 ∧
          r'.status = "new") ∧
    (∀ a ∈ parseEDR pde feed, ∀ i,
      mapLookup (ekey iso) EDRRow.id tbl.rows (akey iso a) = some i →
        ∃ r' ∈ (syncEDRRun iso pde now feed tbl).rows, r'.id = i ∧ r'.syncedAt = now ∧
          ∃ a' ∈ parseEDR pde feed,
            mapLookup (ekey iso) EDRRow.id tbl.rows (akey iso a') = some i ∧
              r'.vtVerdict = a'.vtVerdict) := by
  refine ⟨?_, ?_, ?_, ?_⟩
  · intro r0 hr0
    exact edr_fold_frame iso tbl.rows now (parseEDR pde feed) tbl r0
      ⟨r0, hr0, rfl, rfl, rfl, rfl, rfl, rfl, rfl, rfl, rfl, rfl, rfl⟩
  · exact (edr_fold_new_status iso tbl.rows now (parseEDR pde feed) tbl hB
      (fun r' hr' hfr => absurd rfl (hfr r' hr'))).2
  · intro a ha hl
    exact edr_fold_creates iso tbl.rows now (parseEDR pde feed) tbl a ha hl
  · intro a ha i hl
    exact edr_fold_updates iso tbl.rows now (parseEDR pde feed) (parseEDR pde feed) tbl
      (fun b hb => hb)
      (fun r0 hr0 => ⟨r0, hr0, rfl, rfl, rfl, rfl, rfl, rfl, rfl, rfl, rfl, rfl, rfl⟩)
      a ha i hl

/-- C4 witness: a persisted alert manually set to `investigating` reconciled
against a feed row carrying a verdict for the same (hostname, time, hash)
key: some row still agrees with it on every analyst-owned field (so status
stays `investigating`), and the targeted id holds a verdict from the feed. -/
theorem syncEDR_preserves_analyst_fields_check :
    (∀ r0 ∈ (⟨1, [edrRowInvestigating]⟩ : EDRTable).rows, r0.id < 1) ∧
    (edrRowInvestigating ∈ (⟨1, [edrRowInvestigating]⟩ : EDRTable).rows) ∧
    (∃ r' ∈ (syncEDRRun isoConst pdeConst 3 [edrRowHVerdict]
        ⟨1, [edrRowInvestigating]⟩).rows, edrAgrees edrRowInvestigating r') :=
  ⟨by decide, by decide,
    (syncEDR_preserves_analyst_fields isoConst pdeConst 3 [edrRowHVerdict]
      ⟨1, [edrRowInvestigating]⟩ (by decide)).1 edrRowInvestigating (by decide)⟩

/-! ## Run-level lemmas for `syncEDR` idempotence -/

theorem edr_run_keys (iso : ℤ → String) (pde : String → ℤ) (now : ℤ) (feed : List EDRRawRow)
    (tbl : EDRTable) :
    (syncEDRRun iso pde now feed tbl).rows.map (ekey iso) =
      tbl.rows.map (ekey iso) ++
        ((parseEDR pde feed).filter (fun a =>
          (mapLookup (ekey iso) EDRRow.id tbl.rows (akey iso a)).isNone)).map (akey iso) :=
  edr_fold_keys iso tbl.rows now (parseEDR pde feed) tbl

theorem edr_run_keys_present (iso : ℤ → String) (pde : String → ℤ) (now : ℤ)
    (feed : List EDRRawRow) (tbl : EDRTable) :
    ∀ a ∈ parseEDR pde feed,
      akey iso a ∈ (syncEDRRun iso pde now feed tbl).rows.map (ekey iso) := by
  intro a ha
  rw [edr_run_keys]
  cases hl : mapLookup (ekey iso) EDRRow.id tbl.rows (akey iso a) with
  | some i =>
      obtain ⟨r1, hr1, hk1, _⟩ := mapLookup_mem (ekey iso) EDRRow.id tbl.rows (akey iso a) hl
      exact List.mem_append.mpr (Or.inl (List.mem_map.mpr ⟨r1, hr1, hk1⟩))
  | none =>
      apply List.mem_append.mpr
      right
      apply List.mem_map.mpr
      refine ⟨a, List.mem_filter.mpr ⟨ha, ?_⟩, rfl⟩
      rw [hl]
      rfl

theorem edr_run_twice_keys (iso : ℤ → String) (pde : String → ℤ) (now1 now2 : ℤ)
    (feed : List EDRRawRow) (tbl : EDRTable) :
    (syncEDRRun iso pde now2 feed (syncEDRRun iso pde now1 feed tbl)).rows.map (ekey iso) =
      (syncEDRRun iso pde now1 feed tbl).rows.map (ekey iso) := by
  rw [edr_run_keys]
  have hfilter : (parseEDR pde feed).filter (fun a =>
      (mapLookup (ekey iso) EDRRow.id (syncEDRRun iso pde now1 feed tbl).rows
        (akey iso a)).isNone) = [] := by
    rw [List.filter_eq_nil_iff]
    intro a ha
    have hmem := edr_run_keys_present iso pde now1 feed tbl a ha
    cases hl : mapLookup (ekey iso) EDRRow.id (syncEDRRun iso pde now1 feed tbl).rows
        (akey iso a) with
    | some i => simp
    | none =>
        exact absurd hmem ((mapLookup_eq_none_iff (ekey iso) EDRRow.id _ _).mp hl)
  rw [hfilter]
  simp

/-! ## Upsert lemmas for `syncKB4` -/

theorem kb4_upsert_userIds (pde : String → ℤ) (now : ℤ) (rows : List KB4Row)
    (row : KB4RawRow) :
    (kb4Upsert pde now rows row).map KB4Row.userId =
      if row.user_id ∈ rows.map KB4Row.userId then rows.map KB4Row.userId
      else rows.map KB4Row.userId ++ [row.user_id] := by
  unfold kb4Upsert
  by_cases h : row.user_id ∈ rows.map KB4Row.userId
  · rw [if_pos h, if_pos h, List.map_map]
    apply List.map_congr_left
    intro r _
    show KB4Row.userId (if r.userId = row.user_id then kb4Update pde now row r else r)
      = r.userId
    by_cases hr : r.userId = row.user_id
    · rw [if_pos hr]
      rfl
    · rw [if_neg hr]
  · rw [if_neg h, if_neg h, List.map_append]
    rfl

theorem kb4_upsert_length (pde : String → ℤ) (now : ℤ) (rows : List KB4Row)
    (row : KB4RawRow) :
    (kb4Upsert pde now rows row).length =
      if row.user_id ∈ rows.map KB4Row.userId then rows.length else rows.length + 1 := by
  have h := congrArg List.length (kb4_upsert_userIds pde now rows row)
  rw [List.length_map] at h
  by_cases hm : row.user_id ∈ rows.map KB4Row.userId
  · rw [if_pos hm] at h ⊢
    rw [h, List.length_map]
  · rw [if_neg hm] at h ⊢
    rw [h, List.length_append, List.length_map]
    rfl

theorem kb4_fold_mem_mono (pde : String → ℤ) (now : ℤ) :
    ∀ (vs : List KB4RawRow) (rows : List KB4Row) (k : String),
      k ∈ rows.map KB4Row.userId →
      k ∈ (vs.foldl (kb4Upsert pde now) rows).map KB4Row.userId := by
  intro vs
  induction vs with
  | nil =>
      intro rows k h
      simpa using h
  | cons v rest ih =>
      intro rows k h
      rw [List.foldl_cons]
      apply ih
      rw [kb4_upsert_userIds]
      split
      · exact h
      · exact List.mem_append.mpr (Or.inl h)

theorem kb4_fold_feed_mem (pde : String → ℤ) (now : ℤ) :
    ∀ (vs : List KB4RawRow) (rows : List KB4Row), ∀ v ∈ vs,
      v.user_id ∈ (vs.foldl (kb4Upsert pde now) rows).map KB4Row.userId := by
  intro vs
  induction vs with
  | nil =>
      intro rows v hv
      simp at hv
  | cons w rest ih =>
      intro rows v hv
      rw [List.foldl_cons]
      rcases List.mem_cons.mp hv with rfl | hv2
      · apply kb4_fold_mem_mono
        rw [kb4_upsert_userIds]
        split
        · assumption
        · exact List.mem_append.mpr (Or.inr (List.mem_singleton.mpr rfl))
      · exact ih (kb4Upsert pde now rows w) v hv2

theorem kb4_fold_nodup (pde : String → ℤ) (now : ℤ) :
    ∀ (vs : List KB4RawRow) (rows : List KB4Row),
      (rows.map KB4Row.userId).Nodup →
      ((vs.foldl (kb4Upsert pde now) rows).map KB4Row.userId).Nodup := by
  intro vs
  induction vs with
  | nil =>
      intro rows h
      simpa using h
  | cons v rest ih =>
      intro rows h
      rw [List.foldl_cons]
      apply ih
      rw [kb4_upsert_userIds]
      by_cases hm : v.user_id ∈ rows.map KB4Row.userId
      · rw [if_pos hm]
        exact h
      · rw [if_neg hm]
        exact List.Nodup.append h (List.nodup_singleton _)
          (fun k hk hk2 => hm ((List.mem_singleton.mp hk2) ▸ hk))

theorem kb4_fold_len_stable (pde : String → ℤ) (now : ℤ) :
    ∀ (vs : List KB4RawRow) (rows : List KB4Row),
      (∀ v ∈ vs, v.user_id ∈ rows.map KB4Row.userId) →
      (vs.foldl (kb4Upsert pde now) rows).length = rows.length := by
  intro vs
  induction vs with
  | nil =>
      intro rows _
      rfl
  | cons v rest ih =>
      intro rows h
      have hm : v.user_id ∈ rows.map KB4Row.userId := h v (List.mem_cons_self v rest)
      rw [List.foldl_cons]
      have hkeys : (kb4Upsert pde now rows v).map KB4Row.userId = rows.map KB4Row.userId := by
        rw [kb4_upsert_userIds, if_pos hm]
      have hlen : (kb4Upsert pde now rows v).length = rows.length := by
        rw [kb4_upsert_length, if_pos hm]
      rw [ih (kb4Upsert pde now rows v) (fun w hw => by
        rw [hkeys]
        exact h w (List.mem_cons_of_mem v hw)), hlen]

/-! ## Upsert lemmas for `syncHIBP` -/

theorem hibp_upsert_keys (pde : String → ℤ) (now : ℤ) (rows : List HIBPRow)
    (row : HIBPRawRow) :
    (hibpUpsert pde now rows row).map hkey =
      if (row.Email, row.BreachName) ∈ rows.map hkey then rows.map hkey
      else rows.map hkey ++ [(row.Email, row.BreachName)] := by
  unfold hibpUpsert
  by_cases h : (row.Email, row.BreachName) ∈ rows.map hkey
  · rw [if_pos h, if_pos h, List.map_map]
    apply List.map_congr_left
    intro r _
    show hkey (if r.email = row.Email ∧ r.breachName = row.BreachName
        then { r with syncedAt := now } else r) = hkey r
    by_cases hr : r.email = row.Email ∧ r.breachName = row.BreachName
    · rw [if_pos hr]
      rfl
    · rw [if_neg hr]
  · rw [if_neg h, if_neg h, List.map_append]
    rfl

theorem hibp_upsert_length (pde : String → ℤ) (now : ℤ) (rows : List HIBPRow)
    (row : HIBPRawRow) :
    (hibpUpsert pde now rows row).length =
      if (row.Email, row.BreachName) ∈ rows.map hkey then rows.length
      else rows.length + 1 := by
  have h := congrArg List.length (hibp_upsert_keys pde now rows row)
  rw [List.length_map] at h
  by_cases hm : (row.Email, row.BreachName) ∈ rows.map hkey
  · rw [if_pos hm] at h ⊢
    rw [h, List.length_map]
  · rw [if_neg hm] at h ⊢
    rw [h, List.length_append, List.length_map]
    rfl

theorem hibp_fold_mem_mono (pde : String → ℤ) (now : ℤ) :
    ∀ (vs : List HIBPRawRow) (rows : List HIBPRow) (k : String × String),
      k ∈ rows.map hkey →
      k ∈ (vs.foldl (hibpUpsert pde now) rows).map hkey := by
  intro vs
  induction vs with
  | nil =>
      intro rows k h
      simpa using h
  | cons v rest ih =>
      intro rows k h
      rw [List.foldl_cons]
      apply ih
      rw [hibp_upsert_keys]
      split
      · exact h
      · exact List.mem_append.mpr (Or.inl h)

theorem hibp_fold_feed_mem (pde : String → ℤ) (now : ℤ) :
    ∀ (vs : List HIBPRawRow) (rows : List HIBPRow), ∀ v ∈ vs,
      (v.Email, v.BreachName) ∈ (vs.foldl (hibpUpsert pde now) rows).map hkey := by
  intro vs
  induction vs with
  | nil =>
      intro rows v hv
      simp at hv
  | cons w rest ih =>
      intro rows v hv
      rw [List.foldl_cons]
      rcases List.mem_cons.mp hv with rfl | hv2
      · apply hibp_fold_mem_mono
        rw [hibp_upsert_keys]
        split
        · assumption
        · exact List.mem_append.mpr (Or.inr (List.mem_singleton.mpr rfl))
      · exact ih (hibpUpsert pde now rows w) v hv2

theorem hibp_fold_nodup (pde : String → ℤ) (now : ℤ) :
    ∀ (vs : List HIBPRawRow) (rows : List HIBPRow),
      (rows.map hkey).Nodup →
      ((vs.foldl (hibpUpsert pde now) rows).map hkey).Nodup := by
  intro vs
  induction vs with
  | nil =>
      intro rows h
      simpa using h
  | cons v rest ih =>
      intro rows h
      rw [List.foldl_cons]
      apply ih
      rw [hibp_upsert_keys]
      by_cases hm : (v.Email, v.BreachName) ∈ rows.map hkey
      · rw [if_pos hm]
        exact h
      · rw [if_neg hm]
        exact List.Nodup.append h (List.nodup_singleton _)
          (fun k hk hk2 => hm ((List.mem_singleton.mp hk2) ▸ hk))

theorem hibp_fold_len_stable (pde : String → ℤ) (now : ℤ) :
    ∀ (vs : List HIBPRawRow) (rows : List HIBPRow),
      (∀ v ∈ vs, (v.Email, v.BreachName) ∈ rows.map hkey) →
      (vs.foldl (hibpUpsert pde now) rows).length = rows.length := by
  intro vs
  induction vs with
  | nil =>
      intro rows _
      rfl
  | cons v rest ih =>
      intro rows h
      have hm : (v.Email, v.BreachName) ∈ rows.map hkey := h v (List.mem_cons_self v rest)
      rw [List.foldl_cons]
      have hkeys : (hibpUpsert pde now rows v).map hkey = rows.map hkey := by
        rw [hibp_upsert_keys, if_pos hm]
      have hlen : (hibpUpsert pde now rows v).length = rows.length := by
        rw [hibp_upsert_length, if_pos hm]
      rw [ih (hibpUpsert pde now rows v) (fun w hw => by
        rw [hkeys]
        exact h w (List.mem_cons_of_mem v hw)), hlen]

/-! ## C5: reconciler idempotence -/

/-- C5 counterexample.  The claim says running the alert reconciler twice on
unchanged data produces no duplicate natural keys.  A feed repeating one new
(hostname, timestamp, hash) key creates one row per occurrence on the first
run (the existing-key map predates the loop), so after the two runs the table
holds two rows with the same natural key — while the row count is indeed
unchanged by the second run. -/
theorem syncEDR_twice_duplicate_keys :
    ¬ ((syncEDRRun isoConst pdeConst 1 [edrRowH, edrRowH]
        (syncEDRRun isoConst pdeConst 0 [edrRowH, edrRowH] ⟨0, []⟩)).rows.map
          (ekey isoConst)).Nodup ∧
    (syncEDRRun isoConst pdeConst 1 [edrRowH, edrRowH]
        (syncEDRRun isoConst pdeConst 0 [edrRowH, edrRowH] ⟨0, []⟩)).rows.length =
      (syncEDRRun isoConst pdeConst 0 [edrRowH, edrRowH] ⟨0, []⟩).rows.length ∧
    (syncEDRRun isoConst pdeConst 0 [edrRowH, edrRowH] ⟨0, []⟩).rows.length = 2 := by decide

/-- C5 (amended).  Running a reconciler twice in succession on unchanged
source data leaves the row count unchanged after the second run for all three
reconcilers (for the alert reconciler unconditionally), and leaves no
duplicate natural keys for the identity and breach reconcilers (whose
database upsert enforces the unique key) given a duplicate-free pre-state;
for the alert reconciler the no-duplicate-keys conclusion additionally
requires the feed's parsed alerts to carry pairwise-distinct
(hostname, timestamp, hash) keys. -/
theorem reconcilers_idempotent :
    (∀ (pde : String → ℤ) (now1 now2 : ℤ) (feed : List KB4RawRow) (rows : List KB4Row),
        (rows.map KB4Row.userId).Nodup →
        (syncKB4Run pde now2 feed (syncKB4Run pde now1 feed rows)).length =
          (syncKB4Run pde now1 feed rows).length ∧
        ((syncKB4Run pde now2 feed (syncKB4Run pde now1 feed rows)).map
          KB4Row.userId).Nodup) ∧
    (∀ (iso : ℤ → String) (pde : String → ℤ) (now1 now2 : ℤ) (feed : List EDRRawRow)
        (tbl : EDRTable),
        (syncEDRRun iso pde now2 feed (syncEDRRun iso pde now1 feed tbl)).rows.length =
          (syncEDRRun iso pde now1 feed tbl).rows.length) ∧
    (∀ (iso : ℤ → String) (pde : String → ℤ) (now1 now2 : ℤ) (feed : List EDRRawRow)
        (tbl : EDRTable),
        (tbl.rows.map (ekey iso)).Nodup →
        ((parseEDR pde feed).map (akey iso)).Nodup →
        ((syncEDRRun iso pde now2 feed (syncEDRRun iso pde now1 feed tbl)).rows.map
          (ekey iso)).Nodup) ∧
    (∀ (pde : String → ℤ) (now1 now2 : ℤ) (feed : List HIBPRawRow) (rows : List HIBPRow),
        (rows.map hkey).Nodup →
        (syncHIBPRun pde now2 feed (syncHIBPRun pde now1 feed rows)).length =
          (syncHIBPRun pde now1 feed rows).length ∧
        ((syncHIBPRun pde now2 feed (syncHIBPRun pde now1 feed rows)).map hkey).Nodup) := by
  refine ⟨?_, ?_, ?_, ?_⟩
  · intro pde now1 now2 feed rows h
    constructor
    · exact kb4_fold_len_stable pde now2 (kb4Valid feed) _
        (fun v hv => kb4_fold_feed_mem pde now1 (kb4Valid feed) rows v hv)
    · exact kb4_fold_nodup pde now2 (kb4Valid feed) _
        (kb4_fold_nodup pde now1 (kb4Valid feed) rows h)
  · intro iso pde now1 now2 feed tbl
    have h := congrArg List.length (edr_run_twice_keys iso pde now1 now2 feed tbl)
    rwa [List.length_map, List.length_map] at h
  · intro iso pde now1 now2 feed tbl hE hK
    have h1 : ((syncEDRRun iso pde now1 feed tbl).rows.map (ekey iso)).Nodup := by
      rw [edr_run_keys]
      refine List.Nodup.append hE ?_ ?_
      · exact List.Nodup.sublist
          ((List.filter_sublist (parseEDR pde feed)).map (akey iso)) hK
      · intro k hk1 hk2
        obtain ⟨a, ha, hka⟩ := List.mem_map.mp hk2
        have hpa := List.mem_filter.mp ha
        have hnone : mapLookup (ekey iso) EDRRow.id tbl.rows (akey iso a) = none :=
          Option.isNone_iff_eq_none.mp (by simpa using hpa.2)
        have := (mapLookup_eq_none_iff (ekey iso) EDRRow.id tbl.rows (akey iso a)).mp hnone
        rw [hka] at this
        exact this hk1
    rw [edr_run_twice_keys]
    exact h1
  · intro pde now1 now2 feed rows h
    constructor
    · exact hibp_fold_len_stable pde now2 (hibpValid feed) _
        (fun v hv => hibp_fold_feed_mem pde now1 (hibpValid feed) rows v hv)
    · exact hibp_fold_nodup pde now2 (hibpValid feed) _
        (hibp_fold_nodup pde now1 (hibpValid feed) rows h)

/-- C5 witness: each reconciler run twice from an empty table on a one-row
feed, with the hypotheses discharged concretely. -/
theorem reconcilers_idempotent_check :
    (([] : List KB4Row).map KB4Row.userId).Nodup ∧
    ((syncKB4Run pdeConst 1 [kb4RowU1] (syncKB4Run pdeConst 0 [kb4RowU1] [])).map
      KB4Row.userId).Nodup ∧
    ((⟨0, []⟩ : EDRTable).rows.map (ekey isoConst)).Nodup ∧
    ((parseEDR pdeConst [edrRowHVerdict]).map (akey isoConst)).Nodup ∧
    ((syncEDRRun isoConst pdeConst 1 [edrRowHVerdict]
        (syncEDRRun isoConst pdeConst 0 [edrRowHVerdict] ⟨0, []⟩)).rows.map
          (ekey isoConst)).Nodup ∧
    (([] : List HIBPRow).map hkey).Nodup ∧
    ((syncHIBPRun pdeConst 1 [hibpRowA] (syncHIBPRun pdeConst 0 [hibpRowA] [])).map
      hkey).Nodup :=
  ⟨by decide,
    (reconcilers_idempotent.1 pdeConst 0 1 [kb4RowU1] [] (by decide)).2,
    by decide, by decide,
    reconcilers_idempotent.2.2.1 isoConst pdeConst 0 1 [edrRowHVerdict] ⟨0, []⟩
      (by decide) (by decide),
    by decide,
    (reconcilers_idempotent.2.2.2 pdeConst 0 1 [hibpRowA] [] (by decide)).2⟩

/-! ## C9: per-source failure isolation in `syncAll` -/

theorem syncNCM_logs_shape (fetch : Except String (List NCMRawRow)) (now : ℤ)
    (tbl : NCMTable) (logs : List SyncLogEntry) :
    ∃ e : SyncLogEntry, e.source = "ncm" ∧ (syncNCM fetch now tbl logs).2.1 = logs ++ [e] := by
  cases fetch with
  | error e => exact ⟨⟨"ncm", "error", 0, some e⟩, rfl, rfl⟩
  | ok feed => exact ⟨⟨"ncm", "success", (parseNCM feed).length, none⟩, rfl, rfl⟩

theorem syncEDR_logs_shape (fetch : Except String (List EDRRawRow)) (iso : ℤ → String)
    (pde : String → ℤ) (now : ℤ) (tbl : EDRTable) (logs : List SyncLogEntry) :
    ∃ e : SyncLogEntry, e.source = "edr" ∧
      (syncEDR fetch iso pde now tbl logs).2.1 = logs ++ [e] := by
  cases fetch with
  | error e => exact ⟨⟨"edr", "error", 0, some e⟩, rfl, rfl⟩
  | ok feed => exact ⟨⟨"edr", "success", (parseEDR pde feed).length, none⟩, rfl, rfl⟩

theorem syncHIBP_logs_shape (fetch : Except String (List HIBPRawRow)) (pde : String → ℤ)
    (now : ℤ) (rows : List HIBPRow) (logs : List SyncLogEntry) :
    ∃ e : SyncLogEntry, e.source = "hibp" ∧
      (syncHIBP fetch pde now rows logs).2.1 = logs ++ [e] := by
  cases fetch with
  | error e => exact ⟨⟨"hibp", "error", 0, some e⟩, rfl, rfl⟩
  | ok feed => exact ⟨⟨"hibp", "success", (hibpValid feed).length, none⟩, rfl, rfl⟩

theorem syncNCM_logs_indep (fetch : Except String (List NCMRawRow)) (now : ℤ)
    (tbl : NCMTable) (l1 l2 : List SyncLogEntry) :
    (syncNCM fetch now tbl l1).1 = (syncNCM fetch now tbl l2).1 ∧
    (syncNCM fetch now tbl l1).2.2 = (syncNCM fetch now tbl l2).2.2 := by
  cases fetch <;> exact ⟨rfl, rfl⟩

theorem syncEDR_logs_indep (fetch : Except String (List EDRRawRow)) (iso : ℤ → String)
    (pde : String → ℤ) (now : ℤ) (tbl : EDRTable) (l1 l2 : List SyncLogEntry) :
    (syncEDR fetch iso pde now tbl l1).1 = (syncEDR fetch iso pde now tbl l2).1 ∧
    (syncEDR fetch iso pde now tbl l1).2.2 = (syncEDR fetch iso pde now tbl l2).2.2 := by
  cases fetch <;> exact ⟨rfl, rfl⟩

theorem syncHIBP_logs_indep (fetch : Except String (List HIBPRawRow)) (pde : String → ℤ)
    (now : ℤ) (rows : List HIBPRow) (l1 l2 : List SyncLogEntry) :
    (syncHIBP fetch pde now rows l1).1 = (syncHIBP fetch pde now rows l2).1 ∧
    (syncHIBP fetch pde now rows l1).2.2 = (syncHIBP fetch pde now rows l2).2.2 := by
  cases fetch <;> exact ⟨rfl, rfl⟩

theorem syncKB4_logs_shape (fetch : Except String (List KB4RawRow)) (pde : String → ℤ)
    (now : ℤ) (rows : List KB4Row) (logs : List SyncLogEntry) :
    ∃ e : SyncLogEntry, e.source = "kb4" ∧
      (syncKB4 fetch pde now rows logs).2.1 = logs ++ [e] := by
  cases fetch with
  | error e => exact ⟨⟨"kb4", "error", 0, some e⟩, rfl, rfl⟩
  | ok feed => exact ⟨⟨"kb4", "success", (kb4Valid feed).length, none⟩, rfl, rfl⟩

theorem syncKB4_logs_indep (fetch : Except String (List KB4RawRow)) (pde : String → ℤ)
    (now : ℤ) (rows : List KB4Row) (l1 l2 : List SyncLogEntry) :
    (syncKB4 fetch pde now rows l1).1 = (syncKB4 fetch pde now rows l2).1 ∧
    (syncKB4 fetch pde now rows l1).2.2 = (syncKB4 fetch pde now rows l2).2.2 := by
  cases fetch <;> exact ⟨rfl, rfl⟩

/-- The audit log after `syncAll`, filtered down to one source's entries,
grows by exactly the entry that source's own reconciler appended. -/
theorem syncAll_logs_filter (f : Fetches) (iso : ℤ → String) (pde : String → ℤ) (now : ℤ)
    (db : DB) (src : String) {ek en ee eh : SyncLogEntry}
    (hk : (syncKB4 f.kb4 pde now db.kb4 db.logs).2.1 = db.logs ++ [ek])
    (hn : (syncNCM f.ncm now db.ncm (syncKB4 f.kb4 pde now db.kb4 db.logs).2.1).2.1 =
      (syncKB4 f.kb4 pde now db.kb4 db.logs).2.1 ++ [en])
    (he : (syncEDR f.edr iso pde now db.edr
        (syncNCM f.ncm now db.ncm (syncKB4 f.kb4 pde now db.kb4 db.logs).2.1).2.1).2.1 =
      (syncNCM f.ncm now db.ncm (syncKB4 f.kb4 pde now db.kb4 db.logs).2.1).2.1 ++ [ee])
    (hh : (syncHIBP f.hibp pde now db.hibp
        (syncEDR f.edr iso pde now db.edr
          (syncNCM f.ncm now db.ncm
            (syncKB4 f.kb4 pde now db.kb4 db.logs).2.1).2.1).2.1).2.1 =
      (syncEDR f.edr iso pde now db.edr
        (syncNCM f.ncm now db.ncm
          (syncKB4 f.kb4 pde now db.kb4 db.logs).2.1).2.1).2.1 ++ [eh]) :
    (syncAll f iso pde now db).1.logs.filter (fun e => e.source = src) =
      db.logs.filter (fun e => e.source = src) ++
        ([ek, en, ee, eh].filter (fun e => e.source = src)) := by
  show ((syncHIBP f.hibp pde now db.hibp
      (syncEDR f.edr iso pde now db.edr
        (syncNCM f.ncm now db.ncm
          (syncKB4 f.kb4 pde now db.kb4 db.logs).2.1).2.1).2.1).2.1).filter
      (fun e => e.source = src) = _
  rw [hh, he, hn, hk]
  simp only [List.filter_append, List.filter_cons, List.filter_nil, List.append_assoc]
  split_ifs <;> simp

/-- C9.  For every source whose adapter fetch fails: the reconciler returns
the structured result `{success: false, count: 0, error: message}` instead of
throwing, leaves its table untouched, and appends one audit entry with
outcome `error` and record count 0 (first four conjuncts, one per source);
within an orchestrated `syncAll` run every source's table and result are
exactly those of a standalone run on its own fetch and table, so one source's
failure does not affect the other three and `syncAll` still returns a result
for all four sources (fifth conjunct); and when the KB4 fetch fails with
message `m` the KB4-filtered audit log grows by exactly the single entry
`(kb4, error, 0, m)` (sixth conjunct). -/
theorem syncAll_failure_isolated :
    (∀ (pde : String → ℤ) (now : ℤ) (rows : List KB4Row) (logs : List SyncLogEntry)
        (m : String),
        syncKB4 (.error m) pde now rows logs =
          (rows, logs ++ [⟨"kb4", "error", 0, some m⟩], ⟨false, 0, some m⟩)) ∧
    (∀ (now : ℤ) (tbl : NCMTable) (logs : List SyncLogEntry) (m : String),
        syncNCM (.error m) now tbl logs =
          (tbl, logs ++ [⟨"ncm", "error", 0, some m⟩], ⟨false, 0, some m⟩)) ∧
    (∀ (iso : ℤ → String) (pde : String → ℤ) (now : ℤ) (tbl : EDRTable)
        (logs : List SyncLogEntry) (m : String),
        syncEDR (.error m) iso pde now tbl logs =
          (tbl, logs ++ [⟨"edr", "error", 0, some m⟩], ⟨false, 0, some m⟩)) ∧
    (∀ (pde : String → ℤ) (now : ℤ) (rows : List HIBPRow) (logs : List SyncLogEntry)
        (m : String),
        syncHIBP (.error m) pde now rows logs =
          (rows, logs ++ [⟨"hibp", "error", 0, some m⟩], ⟨false, 0, some m⟩)) ∧
    (∀ (f : Fetches) (iso : ℤ → String) (pde : String → ℤ) (now : ℤ) (db : DB),
        (syncAll f iso pde now db).1.kb4 = (syncKB4 f.kb4 pde now db.kb4 []).1 ∧
        (syncAll f iso pde now db).2.kb4 = (syncKB4 f.kb4 pde now db.kb4 []).2.2 ∧
        (syncAll f iso pde now db).1.ncm = (syncNCM f.ncm now db.ncm []).1 ∧
        (syncAll f iso pde now db).2.ncm = (syncNCM f.ncm now db.ncm []).2.2 ∧
        (syncAll f iso pde now db).1.edr = (syncEDR f.edr iso pde now db.edr []).1 ∧
        (syncAll f iso pde now db).2.edr = (syncEDR f.edr iso pde now db.edr []).2.2 ∧
        (syncAll f iso pde now db).1.hibp = (syncHIBP f.hibp pde now db.hibp []).1 ∧
        (syncAll f iso pde now db).2.hibp = (syncHIBP f.hibp pde now db.hibp []).2.2) ∧
    (∀ (f : Fetches) (iso : ℤ → String) (pde : String → ℤ) (now : ℤ) (db : DB) (m : String),
        f.kb4 = .error m →
        (syncAll f iso pde now db).2.kb4 = ⟨false, 0, some m⟩ ∧
        (syncAll f iso pde now db).1.kb4 = db.kb4 ∧
        (syncAll f iso pde now db).1.logs.filter (fun e => e.source = "kb4") =
          db.logs.filter (fun e => e.source = "kb4") ++ [⟨"kb4", "error", 0, some m⟩]) := by
  refine ⟨fun _ _ _ _ _ => rfl, fun _ _ _ _ => rfl, fun _ _ _ _ _ _ => rfl,
    fun _ _ _ _ _ => rfl, ?_, ?_⟩
  · intro f iso pde now db
    exact ⟨(syncKB4_logs_indep f.kb4 pde now db.kb4 _ []).1,
      (syncKB4_logs_indep f.kb4 pde now db.kb4 _ []).2,
      (syncNCM_logs_indep f.ncm now db.ncm _ []).1,
      (syncNCM_logs_indep f.ncm now db.ncm _ []).2,
      (syncEDR_logs_indep f.edr iso pde now db.edr _ []).1,
      (syncEDR_logs_indep f.edr iso pde now db.edr _ []).2,
      (syncHIBP_logs_indep f.hibp pde now db.hibp _ []).1,
      (syncHIBP_logs_indep f.hibp pde now db.hibp _ []).2⟩
  · intro f iso pde now db m hkb4
    have hkb : syncKB4 f.kb4 pde now db.kb4 db.logs =
        (db.kb4, db.logs ++ [⟨"kb4", "error", 0, some m⟩], ⟨false, 0, some m⟩) := by
      unfold syncKB4
      rw [hkb4]
    refine ⟨?_, ?_, ?_⟩
    · show (syncKB4 f.kb4 pde now db.kb4 db.logs).2.2 = ⟨false, 0, some m⟩
      rw [hkb]
    · show (syncKB4 f.kb4 pde now db.kb4 db.logs).1 = db.kb4
      rw [hkb]
    · obtain ⟨en, hen, hln⟩ := syncNCM_logs_shape f.ncm now db.ncm
        (syncKB4 f.kb4 pde now db.kb4 db.logs).2.1
      obtain ⟨ee, hee, hle⟩ := syncEDR_logs_shape f.edr iso pde now db.edr
        (syncNCM f.ncm now db.ncm (syncKB4 f.kb4 pde now db.kb4 db.logs).2.1).2.1
      obtain ⟨eh, heh, hlh⟩ := syncHIBP_logs_shape f.hibp pde now db.hibp
        (syncEDR f.edr iso pde now db.edr
          (syncNCM f.ncm now db.ncm (syncKB4 f.kb4 pde now db.kb4 db.logs).2.1).2.1).2.1
      have hfil := syncAll_logs_filter f iso pde now db "kb4"
        (by rw [hkb]) hln hle hlh
      rw [hfil]
      have b1 : (decide (("kb4" : String) = "kb4")) = true := by decide
      have b2 : (decide ((en.source : String) = "kb4")) = false := by
        rw [hen]
        decide
      have b3 : (decide ((ee.source : String) = "kb4")) = false := by
        rw [hee]
        decide
      have b4 : (decide ((eh.source : String) = "kb4")) = false := by
        rw [heh]
        decide
      simp only [List.filter_cons, List.filter_nil, b1, b2, b3, b4, if_true, if_false]
      rfl

/-- C9 witness: a concrete fetch bundle whose KB4 adapter fails with message
`boom` while the other three sources fetch empty feeds, run against an empty
store. -/
theorem syncAll_failure_isolated_check :
    ((⟨.error "boom", .ok [], .ok [], .ok []⟩ : Fetches).kb4 = .error "boom") ∧
    (syncAll ⟨.error "boom", .ok [], .ok [], .ok []⟩ isoConst pdeConst 0
        ⟨[], ⟨0, []⟩, ⟨0, []⟩, [], []⟩).2.kb4 = ⟨false, 0, some "boom"⟩ :=
  ⟨rfl,
    (syncAll_failure_isolated.2.2.2.2.2 ⟨.error "boom", .ok [], .ok [], .ok []⟩ isoConst
      pdeConst 0 ⟨[], ⟨0, []⟩, ⟨0, []⟩, [], []⟩ "boom" rfl).1⟩

end WTSec
